import Mathlib

/-!
# Verification of the metalsmith-autonav navigation builder

This development gives a shallow embedding of the navigation-tree and
breadcrumb generation logic of `src/index.js` (the current plugin variant:
`buildNavTree`, `addToTree`, `cleanupTree`, `sortTree`, `generateBreadcrumbs`,
`getNavProperty`) and proves or refutes the specification claims about it.

Modelling conventions:
* JavaScript strings are Lean `String`s; the regex operations used by the
  source (`replace(/\.(html|md)$/, ...)`, `split('/')`, `startsWith`, ...)
  are modelled by explicit suffix/prefix/split functions on `String.toList`.
* A JS navigation object `{key1: node1, key2: node2, ...}` is modelled as an
  insertion-ordered list of nodes, each carrying its own key (`NavNode.key`);
  JS property assignment `obj[k] = v` is `setKey` (replace in place when the
  key exists, else append), matching JS object key ordering.  Storing the key
  on the entry rather than in a pair keeps the nested type structurally
  recursive for Lean.
* JS numbers appearing as sort values are modelled by `Int`, with the
  `Infinity` default for missing values represented explicitly in `JVal`;
  `x - y` inside a sort comparator is modelled by its sign behaviour,
  including `Infinity - Infinity = NaN` which `Array.prototype.sort`
  treats as `0`.
* `Array.prototype.sort` (stable since ES2019) is modelled by the stable
  `List.insertionSort`.
* The option keys (`navLabelKey`, `navIndexKey`, ...) index a dynamic
  metadata bag in JS; here the bag is a typed record (`FileRec`, `NavObj`)
  with one field per key the source reads or writes, i.e. the run uses the
  default key names.  None of the claims depend on key aliasing.
* Two inner functions (`buildTreeRecursively` and `removeDuplicates`) recurse
  along rebuilt values, so their models take explicit fuel; the wrappers pass
  fuel that provably suffices, and congruence lemmas make the fuel
  invisible to the theorems.
-/

namespace Autonav

/-! ## String helpers (models of the JS string/regex operations) -/

/-- JS `s.endsWith(t)`, via list suffix testing. -/
def strEndsWith (t s : String) : Bool :=
  t.toList.isSuffixOf s.toList

/-- Drop the last `n` characters (used to model `replace(/suffix$/, '')`). -/
def strDropLast (s : String) (n : Nat) : String :=
  ⟨s.toList.take (s.toList.length - n)⟩

/-- JS `s.startsWith(t)`. -/
def strStartsWith (t s : String) : Bool :=
  t.toList.isPrefixOf s.toList

/-- JS `s.split('/')`. -/
def splitSlash (s : String) : List String :=
  (s.toList.splitOn '/').map (fun l => ⟨l⟩)

/-- Path text from segments (the inverse view of `split('/')`, used to state
well-formedness of inputs). -/
def joinSlash (l : List String) : String :=
  ⟨['/'].intercalate (l.map String.toList)⟩

/-- JS `s.replace(/\\/g, '/')` (path separator normalization). -/
def backslashToSlash (s : String) : String :=
  ⟨s.toList.map (fun c => if c = '\\' then '/' else c)⟩

/-- JS `s.toLowerCase()` (ASCII, which is all the source feeds it). -/
def lowerStr (s : String) : String :=
  ⟨s.toList.map Char.toLower⟩

/-- JS `filename.replace(/\.(html|md)$/, '')`. -/
def stripExt (s : String) : String :=
  if strEndsWith ".html" s then strDropLast s 5
  else if strEndsWith ".md" s then strDropLast s 3
  else s

/-- JS `s.replace(/index\.(html|md)$/, '')`. -/
def stripIndexName (s : String) : String :=
  if strEndsWith "index.html" s then strDropLast s 10
  else if strEndsWith "index.md" s then strDropLast s 8
  else s

/-- JS `filePath.replace(/\.md$/, '.html')` (non-permalink extension swap). -/
def mdToHtml (s : String) : String :=
  if strEndsWith ".md" s then strDropLast s 3 ++ ".html" else s

/-- JS `s.replace(/\.(md|html)$/, '/')` (permalink extension swap). -/
def extToSlash (s : String) : String :=
  if strEndsWith ".md" s then strDropLast s 3 ++ "/"
  else if strEndsWith ".html" s then strDropLast s 5 ++ "/"
  else s

/-- JS `\w` character class (word characters). -/
def isWordChar (c : Char) : Bool :=
  c.isAlpha || c.isDigit || c = '_'

/-- Characters accepted by `.replace(/\b\w/g, c => c.toUpperCase())`:
uppercase every word character that follows a non-word character
(or the start of the string). -/
def upWordInit : Bool → List Char → List Char
  | _, [] => []
  | prevWord, c :: rest =>
    (if isWordChar c ∧ ¬prevWord then c.toUpper else c) ::
      upWordInit (isWordChar c) rest

/-- JS slug-to-title-case: replace every hyphen by a space, then uppercase
every word-initial character (the two global `replace` calls the source
applies). -/
def titleCase (s : String) : String :=
  ⟨upWordInit false (s.toList.map (fun c => if c = '-' then ' ' else c))⟩

/-- JS `s.startsWith('/') ? s : '/' + s`. -/
def ensureLeadSlash (s : String) : String :=
  if strStartsWith "/" s then s else "/" ++ s

/-- Segments of a path with empty parts removed:
JS `path.split('/').filter(Boolean)`. -/
def segsOf (s : String) : List String :=
  (splitSlash s).filter (fun t => t ≠ "")

/-- Raw `split('/').length` (no filtering), as used by the duplicate-removal
path-length comparisons. -/
def rawSegCount (s : String) : Nat :=
  (splitSlash s).length

/-! ## Sort values and the JS comparator -/

/-- A frontmatter/sort value as the source consumes it: a number or a string
(`navIndex` values, custom `sortBy` fields, node titles and paths). -/
inductive SortVal : Type where
  | num (n : Int)
  | str (s : String)
deriving DecidableEq, Repr

/-- The value a comparator operand takes after the source's
`x !== undefined ? x : Infinity` defaulting: a number, a string, or the
`Infinity` inserted for a missing field. -/
inductive JVal : Type where
  | num (n : Int)
  | str (s : String)
  | inf
deriving DecidableEq, Repr

/-- Apply the `!== undefined ? ... : Infinity` defaulting. -/
def orInf : Option SortVal → JVal
  | some (.num n) => .num n
  | some (.str s) => .str s
  | none => .inf

/-- JS `Number(string)` as it matters for subtraction inside the comparator:
decimal integer strings convert to their value, anything else is `NaN`
(`none`).  (The full JS numeric grammar also admits floats etc., which never
appear as sort keys here.) -/
def jsStrToNum (s : String) : Option Int := s.toInt?

def intSign (x y : Int) : Int :=
  if x < y then -1 else if y < x then 1 else 0

/-- Sign of the JS expression `a - b` for comparator operands, after the
`Infinity` defaulting.  `NaN` comparator results are mapped to `0`, which is
what `Array.prototype.sort` does with a `NaN` return value. -/
def jsSubSign (a b : JVal) : Int :=
  match a, b with
  | .inf, .inf => 0
  | .inf, .num _ => 1
  | .num _, .inf => -1
  | .num x, .num y => intSign x y
  | .str s, .inf =>
    match jsStrToNum s with
    | none => 0
    | some _ => -1
  | .inf, .str s =>
    match jsStrToNum s with
    | none => 0
    | some _ => 1
  | .str s, .num y =>
    match jsStrToNum s with
    | none => 0
    | some x => intSign x y
  | .num x, .str s =>
    match jsStrToNum s with
    | none => 0
    | some y => intSign x y
  | .str s, .str t =>
    match jsStrToNum s, jsStrToNum t with
    | some x, some y => intSign x y
    | _, _ => 0

/-- `a.localeCompare(b)` modelled as code-point comparison (the locale used in
practice orders the ASCII keys the plugin produces this way). -/
def localeCmp (a b : String) : Int :=
  match compare a b with
  | .lt => -1
  | .eq => 0
  | .gt => 1

/-- The comparator body shared by every sort in the source:
strings compare with `localeCompare`, everything else numerically, and
`sortReverse` swaps the operands of the final comparison. -/
def jsCmp (sortReverse : Bool) (valA valB : JVal) : Int :=
  match valA, valB with
  | .str sa, .str sb => if sortReverse then localeCmp sb sa else localeCmp sa sb
  | a, b => if sortReverse then jsSubSign b a else jsSubSign a b

/-! ## Records, options and navigation nodes -/

/-- One breadcrumb entry `{title, path}`. -/
structure Crumb : Type where
  title : String
  path : String
deriving DecidableEq, Repr

/-- A navigation node.  JS shape: an entry `key: {title, path, children,
index?}` of a navigation object; the entry's key is stored on the node
(`key`), and `children` is the insertion-ordered list of child entries. -/
inductive NavNode : Type where
  | mk (key : String) (title : String) (path : String) (index : Option SortVal)
      (children : List NavNode)

def NavNode.key : NavNode → String
  | .mk k _ _ _ _ => k

def NavNode.title : NavNode → String
  | .mk _ t _ _ _ => t

def NavNode.path : NavNode → String
  | .mk _ _ p _ _ => p

def NavNode.index : NavNode → Option SortVal
  | .mk _ _ _ i _ => i

def NavNode.children : NavNode → List NavNode
  | .mk _ _ _ _ c => c

/-- The same node stored under key `k` (JS assignment `obj[k] = v`). -/
def NavNode.keyed (k : String) : NavNode → NavNode
  | .mk _ t p i c => .mk k t p i c

/-- Flat navigation maps (the tree top level and every `children` object). -/
abbrev NavMap := List NavNode

/-- JS property read `obj[k]` on a navigation object. -/
def lookupKey (m : NavMap) (k : String) : Option NavNode :=
  m.find? (fun n => n.key = k)

/-- JS property write `obj[k] = v`: replace in place when the key exists
(JS keeps the original insertion position), else append. -/
def setKey (m : NavMap) (k : String) (v : NavNode) : NavMap :=
  match m with
  | [] => [v.keyed k]
  | n :: rest => if n.key = k then v.keyed k :: rest else n :: setKey rest k v

/-- JS `delete obj[k]`. -/
def eraseKey (m : NavMap) (k : String) : NavMap :=
  m.filter (fun n => n.key ≠ k)

/-- Dynamic property lookup `item[propName]` on a navigation node, as the
default sort comparator performs it.  Nodes own `title`, `path` and
(optionally) `index`; any other name is `undefined`. -/
def nodeGet (n : NavNode) (name : String) : Option SortVal :=
  if name = "title" then some (.str n.title)
  else if name = "path" then some (.str n.path)
  else if name = "index" then n.index
  else none

/-- The per-file navigation metadata object (`file.navigation` under the
default `navigationObjectKey`). -/
structure NavObj : Type where
  navLabel : Option String := none
  navIndex : Option SortVal := none
  navExclude : Bool := false
  path : Option String := none
  breadcrumb : Option (List Crumb) := none
deriving Repr

/-- A metalsmith file record, restricted to the fields the plugin reads or
writes (under the default option key names): `navLabel`, `navIndex`,
`navExclude` directly on the record, the nested `navigation` object, and the
writable `path`/`breadcrumb` slots.  `extra` models any further frontmatter
field that a custom `sortBy` may name. -/
structure FileRec : Type where
  navLabel : Option String := none
  navIndex : Option SortVal := none
  navExclude : Bool := false
  navigation : Option NavObj := none
  extra : List (String × SortVal) := []
  path : Option String := none
  breadcrumb : Option (List Crumb) := none
deriving Repr

/-- `getNavProperty(file, 'navLabel', options)`: read the property from the
file's navigation object, `undefined` when the object is absent. -/
def getNavLabel (f : FileRec) : Option String :=
  match f.navigation with
  | some nav => nav.navLabel
  | none => none

def getNavIndexProp (f : FileRec) : Option SortVal :=
  match f.navigation with
  | some nav => nav.navIndex
  | none => none

def getNavExcludeProp (f : FileRec) : Bool :=
  match f.navigation with
  | some nav => nav.navExclude
  | none => false

/-- Dynamic property read `files[a][options.sortBy]` on a file record. -/
def fileGet (f : FileRec) (name : String) : Option SortVal :=
  if name = "navIndex" then f.navIndex
  else if name = "navLabel" then f.navLabel.map .str
  else ((f.extra.find? (fun p => p.1 = name)).map (fun p => p.2))

/-- The `sortBy` option: a frontmatter/node property name, or a custom
comparator function receiving two nodes (the `options` argument the JS
callback also receives is closed over here). -/
inductive SortBy : Type where
  | field (name : String)
  | fn (cmp : NavNode → NavNode → Int)

/-- The `navLabelKey` option: the default property lookup, or a custom
label function `(file, filePath, filename) => label`. -/
inductive LabelBy : Type where
  | field
  | fn (f : FileRec → String → String → String)

/-- Plugin options (single-configuration run, default key names).
`sortBy := none` models a falsy `sortBy` value. -/
structure Opts : Type where
  navHomePage : Bool := true
  navHomeLabel : String := "Home"
  sortBy : Option SortBy := some (.field "navIndex")
  sortReverse : Bool := false
  pathFilter : Option (String → FileRec → Bool) := none
  usePermalinks : Bool := true
  labelBy : LabelBy := .field

/-! ## A computable size measure for the nested recursions -/

mutual
def nodeSize : NavNode → Nat
  | .mk _ _ _ _ cs => 1 + mapSize cs
def mapSize : List NavNode → Nat
  | [] => 0
  | c :: rest => 1 + nodeSize c + mapSize rest
end

theorem nodeSize_pos (n : NavNode) : 1 ≤ nodeSize n := by
  cases n; unfold nodeSize; omega

theorem nodeSize_eq (n : NavNode) : nodeSize n = 1 + mapSize n.children := by
  cases n; rfl

theorem mapSize_cons (c : NavNode) (rest : NavMap) :
    mapSize (c :: rest) = 1 + nodeSize c + mapSize rest := rfl

theorem nodeSize_lt_of_mem {l : NavMap} {c : NavNode} (h : c ∈ l) :
    nodeSize c < mapSize l := by
  induction l with
  | nil => cases h
  | cons a rest ih =>
    rcases List.mem_cons.mp h with heq | hmem
    · subst heq; rw [mapSize_cons]; omega
    · have := ih hmem; rw [mapSize_cons]; omega

theorem mapSize_children_lt (n : NavNode) : mapSize n.children < nodeSize n := by
  rw [nodeSize_eq]; omega

theorem mapSize_perm {l₁ l₂ : NavMap} (h : l₁.Perm l₂) :
    mapSize l₁ = mapSize l₂ := by
  induction h with
  | nil => rfl
  | cons z _ ih => rw [mapSize_cons, mapSize_cons, ih]
  | swap z w l => rw [mapSize_cons, mapSize_cons, mapSize_cons, mapSize_cons]; omega
  | trans _ _ ih1 ih2 => omega

theorem mapSize_filter_le (f : NavNode → Bool) (l : NavMap) :
    mapSize (l.filter f) ≤ mapSize l := by
  induction l with
  | nil => simp
  | cons q rest ih =>
    rw [List.filter_cons]
    cases hfa : f q
    · rw [mapSize_cons]
      simp
      omega
    · simp only [if_true]
      rw [mapSize_cons, mapSize_cons]
      omega

theorem mapSize_eraseKey_le (l : NavMap) (k : String) :
    mapSize (eraseKey l k) ≤ mapSize l :=
  mapSize_filter_le _ l

theorem mapSize_zero_iff {l : NavMap} : mapSize l = 0 ↔ l = [] := by
  cases l with
  | nil => simp [mapSize]
  | cons q rest =>
    rw [mapSize_cons]
    constructor
    · intro h
      exfalso
      omega
    · intro h
      exact absurd h (by simp)

theorem lookupKey_mem {l : NavMap} {k : String} {g : NavNode}
    (h : lookupKey l k = some g) : g ∈ l ∧ g.key = k := by
  unfold lookupKey at h
  have hmem := List.mem_of_find?_eq_some h
  have hkey := List.find?_some h
  simp at hkey
  exact ⟨hmem, hkey⟩

theorem nodeSize_keyed (k : String) (n : NavNode) :
    nodeSize (n.keyed k) = nodeSize n := by
  cases n; rfl

/-! ## Path normalization (buildNavTree's URL computation) -/

/-- The URL path `buildNavTree` computes for a processed file
(before the final leading-slash normalization):
* permalinks on, index file: strip the `index.<ext>` name;
* permalinks on, other file: swap the extension for `/`, normalize
  backslashes, and for nested files rebuild the URL as
  `/<first-dir>/<basename>/` (this drops intermediate directories, as the
  source does);
* permalinks off: only swap a `.md` extension for `.html`. -/
def rawUrlPath (usePermalinks : Bool) (filePath : String) : String :=
  if usePermalinks then
    if strEndsWith "index.md" filePath ∨ strEndsWith "index.html" filePath then
      stripIndexName filePath
    else
      let u := backslashToSlash (extToSlash filePath)
      let pathParts := splitSlash filePath
      if pathParts.length > 1 then
        let parentDir := pathParts.headD ""
        let fileName := stripExt (pathParts.getLastD "")
        "/" ++ parentDir ++ "/" ++ fileName ++ "/"
      else u
  else mdToHtml filePath

/-- The normalized path stored on the nav item and on the file record:
backslash normalization plus a guaranteed leading `/`. -/
def normalizePath (usePermalinks : Bool) (filePath : String) : String :=
  ensureLeadSlash (backslashToSlash (rawUrlPath usePermalinks filePath))

/-! ## addToTree -/

/-- The `currentPath` accumulated inside `buildTreeRecursively` for position
`depth`: every segment up to `depth` with any `index.<ext>` name stripped,
separator-free joining for inner positions, and a trailing `/` at the last
position exactly when permalinks are on. -/
def currentPathAt (usePermalinks : Bool) (pathSegments : List String)
    (depth : Nat) : String :=
  (List.range (depth + 1)).foldl
    (fun acc i =>
      let ps := stripIndexName (pathSegments.getD i "")
      if ps = "" then acc
      else acc ++ ps ++ (if i < depth ∨ ¬usePermalinks then "" else "/"))
    "/"

/-- JS `currentPath.replace(/\/$/, '')`. -/
def dropTrailSlash (s : String) : String :=
  if strEndsWith "/" s then strDropLast s 1 else s

/-- The `parentPath` built when a leaf's parent node is missing: segments
before `depth`, each followed by `/` exactly when permalinks are on. -/
def parentPathAt (usePermalinks : Bool) (pathSegments : List String)
    (depth : Nat) : String :=
  (List.range depth).foldl
    (fun acc i =>
      let ps := stripIndexName (pathSegments.getD i "")
      if ps = "" then acc
      else acc ++ ps ++ (if usePermalinks then "/" else ""))
    "/"

/-- A freshly created directory node (title-cased key). -/
def freshDirNode (key path : String) : NavNode :=
  .mk key (titleCase key) path none []

/-- `buildTreeRecursively(node, pathSegments, depth)`, functionally: returns
the updated `node` children object.  The JS mutates `node` in place and
returns a node; only the mutation is observable, so the model returns the
updated map.  Fuel is the number of positions left to walk. -/
def buildTreeRecF (opts : Opts) (navItem : NavNode) (pathSegments : List String) :
    Nat → NavMap → Nat → NavMap
  | 0, node, _ => node
  | fuel + 1, node, depth =>
  if pathSegments.length ≤ depth then node
  else
    let segment := pathSegments.getD depth ""
    let isLastSegment := depth = pathSegments.length - 1
    let isIndexFile := isLastSegment ∧ (segment = "index.html" ∨ segment = "index.md")
    let currentPath := currentPathAt opts.usePermalinks pathSegments depth
    let segmentPath :=
      if opts.usePermalinks then currentPath
      else if isIndexFile then currentPath
      else dropTrailSlash currentPath ++ ".html"
    if isIndexFile then
      if depth > 0 then
        let parentSegment := stripExt (pathSegments.getD (depth - 1) "")
        let base := (lookupKey node parentSegment).getD (freshDirNode parentSegment segmentPath)
        setKey node parentSegment
          (.mk parentSegment navItem.title navItem.path
            (match navItem.index with
             | some i => some i
             | none => base.index)
            base.children)
      else
        match lookupKey node "home" with
        | none => setKey node "home" navItem
        | some h =>
          setKey node "home"
            (.mk "home" navItem.title navItem.path
              (match navItem.index with
               | some i => some i
               | none => h.index)
              h.children)
    else if isLastSegment then
      let key := stripExt segment
      if depth = 0 then setKey node key navItem
      else
        let parentKey := stripExt (pathSegments.getD (depth - 1) "")
        let parent :=
          (lookupKey node parentKey).getD
            (freshDirNode parentKey (parentPathAt opts.usePermalinks pathSegments depth))
        let newKids :=
          match lookupKey parent.children key with
          | some _ => parent.children
          | none => setKey parent.children key navItem
        setKey node parentKey (.mk parentKey parent.title parent.path parent.index newKids)
    else
      let key := stripExt segment
      let cur := (lookupKey node key).getD (freshDirNode key segmentPath)
      setKey node key
        (.mk key cur.title cur.path cur.index
          (buildTreeRecF opts navItem pathSegments fuel cur.children (depth + 1)))

def buildTreeRec (opts : Opts) (navItem : NavNode) (pathSegments : List String)
    (node : NavMap) (depth : Nat) : NavMap :=
  buildTreeRecF opts navItem pathSegments (pathSegments.length - depth) node depth

theorem buildTreeRecF_congr (opts : Opts) (navItem : NavNode)
    (pathSegments : List String) : ∀ (f1 f2 : Nat) (node : NavMap) (depth : Nat),
    pathSegments.length - depth ≤ f1 → pathSegments.length - depth ≤ f2 →
    buildTreeRecF opts navItem pathSegments f1 node depth =
      buildTreeRecF opts navItem pathSegments f2 node depth := by
  intro f1
  induction f1 using Nat.strong_induction_on with
  | _ f1 ih =>
    intro f2 node depth h1 h2
    match f1, f2 with
    | 0, 0 => rfl
    | 0, b + 1 =>
      have hle : pathSegments.length ≤ depth := by omega
      show node = buildTreeRecF opts navItem pathSegments (b + 1) node depth
      unfold buildTreeRecF
      simp [hle]
    | a + 1, 0 =>
      have hle : pathSegments.length ≤ depth := by omega
      show buildTreeRecF opts navItem pathSegments (a + 1) node depth = node
      unfold buildTreeRecF
      simp [hle]
    | a + 1, b + 1 =>
      show buildTreeRecF opts navItem pathSegments (a + 1) node depth =
        buildTreeRecF opts navItem pathSegments (b + 1) node depth
      unfold buildTreeRecF
      by_cases hle : pathSegments.length ≤ depth
      · simp [hle]
      · simp only [hle, if_false]
        rw [ih a (by omega) b _ (depth + 1) (by omega) (by omega)]

theorem buildTreeRec_eq_fueled (opts : Opts) (navItem : NavNode)
    (pathSegments : List String) (fuel : Nat) (node : NavMap) (depth : Nat)
    (h : pathSegments.length - depth ≤ fuel) :
    buildTreeRec opts navItem pathSegments node depth =
      buildTreeRecF opts navItem pathSegments fuel node depth :=
  buildTreeRecF_congr opts navItem pathSegments _ _ node depth (Nat.le_refl _) h

/-- `addToTree(tree, segments, navItem, filePath, options)`. -/
def addToTree (tree : NavMap) (segments : List String) (navItem : NavNode)
    (filePath : String) (opts : Opts) : NavMap :=
  if segments = [] then
    let key :=
      if filePath = "index.html" ∨ filePath = "index.md" then "home"
      else lowerStr (stripExt filePath)
    setKey tree key navItem
  else
    buildTreeRec opts navItem (segments ++ [(splitSlash filePath).getLastD ""]) tree 0

/-! ## sortTree -/

/-- The top-level comparator of `sortTree`: a custom `sortBy` function is
called directly; otherwise values are read at `options.sortBy || 'index'`
with `Infinity` for missing values, strings by `localeCompare`, and
`sortReverse` swapping the operands. -/
def cmpTop (opts : Opts) (a b : NavNode) : Int :=
  match opts.sortBy with
  | some (.fn f) => f a b
  | some (.field nm) => jsCmp opts.sortReverse (orInf (nodeGet a nm)) (orInf (nodeGet b nm))
  | none => jsCmp opts.sortReverse (orInf (nodeGet a "index")) (orInf (nodeGet b "index"))

/-- The inline comparator `sortTree` applies to a node's children: the same
property comparison, except that a function-valued `sortBy` is used as a
property name, so both lookups are `undefined` and every comparison ties. -/
def cmpInline (opts : Opts) (a b : NavNode) : Int :=
  match opts.sortBy with
  | some (.fn _) => jsCmp opts.sortReverse JVal.inf JVal.inf
  | some (.field nm) => jsCmp opts.sortReverse (orInf (nodeGet a nm)) (orInf (nodeGet b nm))
  | none => jsCmp opts.sortReverse (orInf (nodeGet a "index")) (orInf (nodeGet b "index"))

/-- `sortTree(tree, options)` with explicit recursion fuel: stable-sort the
top level, then each node's children with the inline comparator, recursing
into non-empty grandchild maps. -/
def sortTreeF : Nat → Opts → NavMap → NavMap
  | 0, _, tree => tree
  | fuel + 1, opts, tree =>
    if tree.isEmpty then tree
    else
      let sorted := List.insertionSort (fun a b => cmpTop opts a b ≤ 0) tree
      sorted.map (fun v =>
        if v.children.isEmpty then v
        else
          let kids := List.insertionSort (fun a b => cmpInline opts a b ≤ 0) v.children
          NavNode.mk v.key v.title v.path v.index
            (kids.map (fun c =>
              if c.children.isEmpty then c
              else NavNode.mk c.key c.title c.path c.index
                (sortTreeF fuel opts c.children))))

def sortTree (opts : Opts) (tree : NavMap) : NavMap :=
  sortTreeF (mapSize tree) opts tree

theorem sortTreeF_congr : ∀ (f1 f2 : Nat) (opts : Opts) (tree : NavMap),
    mapSize tree ≤ f1 → mapSize tree ≤ f2 →
    sortTreeF f1 opts tree = sortTreeF f2 opts tree := by
  intro f1
  induction f1 using Nat.strong_induction_on with
  | _ f1 ih =>
    intro f2 opts tree h1 h2
    match f1, f2 with
    | 0, 0 => rfl
    | 0, b + 1 =>
      have hnil : tree = [] := mapSize_zero_iff.mp (by omega)
      subst hnil
      simp [sortTreeF]
    | a + 1, 0 =>
      have hnil : tree = [] := mapSize_zero_iff.mp (by omega)
      subst hnil
      simp [sortTreeF]
    | a + 1, b + 1 =>
      show sortTreeF (a + 1) opts tree = sortTreeF (b + 1) opts tree
      unfold sortTreeF
      by_cases hemp : tree.isEmpty
      · simp [hemp]
      · simp only [hemp, if_false, Bool.false_eq_true]
        apply List.map_congr_left
        intro x hx
        have hxt : x ∈ tree := ((List.perm_insertionSort _ tree).mem_iff).mp hx
        have hxs : nodeSize x < mapSize tree := nodeSize_lt_of_mem hxt
        by_cases hce : x.children.isEmpty
        · simp [hce]
        · simp only [hce, if_false, Bool.false_eq_true]
          congr 1
          apply List.map_congr_left
          intro y hy
          have hyc : y ∈ x.children :=
            ((List.perm_insertionSort _ x.children).mem_iff).mp hy
          have hys : nodeSize y < mapSize x.children := nodeSize_lt_of_mem hyc
          have hkidv : mapSize x.children < nodeSize x := mapSize_children_lt _
          have hck : mapSize y.children < nodeSize y := mapSize_children_lt _
          by_cases hye : y.children.isEmpty
          · simp [hye]
          · simp only [hye, if_false, Bool.false_eq_true]
            congr 1
            exact ih a (by omega) b opts y.children (by omega) (by omega)

/-- Unfolding `sortTree` with any sufficient fuel. -/
theorem sortTree_eq_fueled (fuel : Nat) (opts : Opts) (tree : NavMap)
    (h : mapSize tree ≤ fuel) : sortTree opts tree = sortTreeF fuel opts tree :=
  sortTreeF_congr _ _ opts tree (Nat.le_refl _) h

/-! ## cleanupTree -/

mutual
/-- All truthy node paths in a subtree, in the preorder `collectPaths`
visits them (mutual structural recursion with its list version). -/
def nodePaths : NavNode → List String
  | .mk _ _ p _ cs => (if p ≠ "" then [p] else []) ++ nodePathsL cs
def nodePathsL : List NavNode → List String
  | [] => []
  | c :: rest => nodePaths c ++ nodePathsL rest
end

/-- All truthy paths of a whole tree. -/
def treePaths (t : NavMap) : List String :=
  nodePathsL t

/-- `duplicates.has(p)`: `p` was collected more than once. -/
def isDupPath (t : NavMap) (p : String) : Bool :=
  2 ≤ (treePaths t).count p

/-- The separator characters that mark a basename prefixed by its directory
name as legitimate (JS character class `[-_.0-9]`). -/
def isLegitSep (c : Char) : Bool :=
  c = '-' ∨ c = '_' ∨ c = '.' ∨ c.isDigit

/-- `substring(n, n+1).match(/[-_.0-9]/)` on the second segment. -/
def sepAfter (second : String) (n : Nat) : Bool :=
  match (second.toList.drop n).take 1 with
  | [c] => isLegitSep c
  | _ => false

/-- JS `s.slice(n)`. -/
def strDropChars (s : String) (n : Nat) : String :=
  ⟨s.toList.drop n⟩

/-- The path rewrite `fixMalformedPaths` applies to one node's path:
fix exact segment duplication (`/blog/blog/`), literal doubling
(`/blogblog/`), and prefix-doubling with a near-empty remainder; leave
every other path (in particular legitimate `blog/blogpost-1` names) alone. -/
def fixPath (p : String) : String :=
  match segsOf p with
  | first :: second :: _ =>
    if second = first then "/" ++ first ++ "/"
    else if second = first ++ first then "/" ++ first ++ "/"
    else if strStartsWith first second ∧ ¬ sepAfter second (first.toList.length) then
      let remainder := strDropChars second first.toList.length
      if remainder.toList.length ≤ 2 then "/" ++ first ++ "/" ++ remainder ++ "/"
      else p
    else p
  | _ => p

mutual
/-- `fixMalformedPaths`, acting on a children map: rewrite each child's
truthy path with `fixPath`, then recurse into its children (a child with a
falsy path is skipped entirely, recursion included). -/
def fixMalformed : List NavNode → List NavNode
  | [] => []
  | c :: rest => fixMalformedNode c :: fixMalformed rest
def fixMalformedNode : NavNode → NavNode
  | .mk k t p i cs =>
    if p = "" then NavNode.mk k t p i cs
    else NavNode.mk k t (fixPath p) i (fixMalformed cs)
end

/-- Consecutive duplicated segments (`/blog/blog/`), as the duplicate check
tests with filtered segments. -/
def hasDoubledSeg (p : String) : Bool :=
  ((segsOf p).zip (segsOf p).tail).any (fun q => q.1 = q.2)

/-- One step of the first pass of `removeDuplicates`: if the child has a
grandchild under the child's own key, adopt the grandchild's path when it
has more raw segments (and is truthy), and delete that grandchild. -/
def rdStep (c : NavNode) : NavNode :=
  match lookupKey c.children c.key with
  | some g =>
    .mk c.key c.title
      (if g.path ≠ "" ∧ rawSegCount c.path < rawSegCount g.path then g.path else c.path)
      c.index (eraseKey c.children c.key)
  | none => c

/-- The first pass of `removeDuplicates` over one children map. -/
def rdPhaseA (children : NavMap) : NavMap :=
  children.map rdStep

theorem rdStep_key (c : NavNode) : (rdStep c).key = c.key := by
  unfold rdStep
  cases lookupKey c.children c.key <;> rfl

theorem nodeSize_rdStep_le (c : NavNode) : nodeSize (rdStep c) ≤ nodeSize c := by
  unfold rdStep
  cases hm : lookupKey c.children c.key with
  | none => exact Nat.le_refl _
  | some g =>
    have he : mapSize (eraseKey c.children c.key) ≤ mapSize c.children :=
      mapSize_eraseKey_le _ _
    cases c with
    | mk k t p i cs =>
      show nodeSize (NavNode.mk k t _ i (eraseKey cs k)) ≤ nodeSize (NavNode.mk k t p i cs)
      unfold nodeSize
      simp [NavNode.children, NavNode.key] at he ⊢
      omega

theorem nodeSize_mem_rdPhaseA {children : NavMap} {x : NavNode}
    (h : x ∈ rdPhaseA children) : nodeSize x < mapSize children := by
  rcases List.mem_map.mp h with ⟨q, hq, hxq⟩
  have h1 : nodeSize (rdStep q) ≤ nodeSize q := nodeSize_rdStep_le q
  have h2 : nodeSize q < mapSize children := nodeSize_lt_of_mem hq
  rw [← hxq]
  omega

/-- `removeDuplicates(node)`, acting on `node`'s children with `node`'s path
(`none` models the synthetic `{children: tree}` wrapper, whose `path` is
`undefined`): phase A above, then the per-child pass that deletes
self-references (`child.path === node.path`), deletes duplicate paths with
doubled segments, recurses, and finally re-runs the same-key grandchild
merge on the recursion result. -/
def rdChildrenF : Nat → (String → Bool) → Option String → NavMap → NavMap
  | 0, _, _, children => children
  | fuel + 1, dups, pp, children =>
    (rdPhaseA children).filterMap (fun c =>
      if some c.path = pp then none
      else if dups c.path ∧ hasDoubledSeg c.path then none
      else
        let c1 := NavNode.mk c.key c.title c.path c.index
          (rdChildrenF fuel dups (some c.path) c.children)
        match lookupKey c1.children c1.key with
        | some g =>
          if rawSegCount c1.path < rawSegCount g.path then
            some (NavNode.mk c1.key g.title g.path c1.index (eraseKey c1.children c1.key))
          else
            some (NavNode.mk c1.key c1.title c1.path c1.index (eraseKey c1.children c1.key))
        | none => some c1)

def rdChildren (dups : String → Bool) (pp : Option String) (children : NavMap) : NavMap :=
  rdChildrenF (mapSize children) dups pp children

theorem rdChildrenF_congr : ∀ (f1 f2 : Nat) (dups : String → Bool)
    (pp : Option String) (children : NavMap),
    mapSize children ≤ f1 → mapSize children ≤ f2 →
    rdChildrenF f1 dups pp children = rdChildrenF f2 dups pp children := by
  intro f1
  induction f1 using Nat.strong_induction_on with
  | _ f1 ih =>
    intro f2 dups pp children h1 h2
    match f1, f2 with
    | 0, 0 => rfl
    | 0, b + 1 =>
      have hnil : children = [] := mapSize_zero_iff.mp (by omega)
      subst hnil
      simp [rdChildrenF, rdPhaseA]
    | a + 1, 0 =>
      have hnil : children = [] := mapSize_zero_iff.mp (by omega)
      subst hnil
      simp [rdChildrenF, rdPhaseA]
    | a + 1, b + 1 =>
      show rdChildrenF (a + 1) dups pp children = rdChildrenF (b + 1) dups pp children
      unfold rdChildrenF
      apply List.filterMap_congr
      intro x hx
      have hxs : nodeSize x < mapSize children := nodeSize_mem_rdPhaseA hx
      have hcx : mapSize x.children < nodeSize x := mapSize_children_lt x
      rw [ih a (by omega) b dups (some x.path) x.children (by omega) (by omega)]

theorem rdChildren_eq_fueled (fuel : Nat) (dups : String → Bool)
    (pp : Option String) (children : NavMap) (h : mapSize children ≤ fuel) :
    rdChildren dups pp children = rdChildrenF fuel dups pp children :=
  rdChildrenF_congr _ _ dups pp children (Nat.le_refl _) h

mutual
/-- `cleanEmptyChildren` (a pure traversal: it rewrites empty children
objects to empty objects, i.e. changes nothing structurally). -/
def cleanEmptyKids : List NavNode → List NavNode
  | [] => []
  | c :: rest => cleanEmptyNode c :: cleanEmptyKids rest
def cleanEmptyNode : NavNode → NavNode
  | .mk k t p i cs => NavNode.mk k t p i (cleanEmptyKids cs)
end

/-- `cleanupTree(tree)`: collect duplicate paths from the original tree,
fix malformed paths, remove duplicates/self-references, and run the final
empty-children pass. -/
def cleanupTree (tree : NavMap) : NavMap :=
  let dups := fun p => isDupPath tree p
  cleanEmptyKids (rdChildren dups none (fixMalformed tree))

/-! ## buildNavTree -/

/-- `filePath.split('/').pop()`. -/
def lastSeg (p : String) : String :=
  (splitSlash p).getLastD ""

/-- The directory segments left after popping the filename. -/
def dirSegs (p : String) : List String :=
  (splitSlash p).dropLast

/-- JS string truthiness for an optional label (`undefined` and `""` are
falsy). -/
def truthyStr : Option String → Option String
  | some s => if s = "" then none else some s
  | none => none

/-- `a || b` on label values. -/
def jsOrStr (a b : Option String) : Option String :=
  match truthyStr a with
  | some s => some s
  | none => b

/-- The file-local `toTitleCase`: an `index` basename with a nonempty
directory chain takes its parent directory's name instead. -/
def toTitleCaseCtx (dirs : List String) (s : String) : String :=
  if s = "index" ∧ dirs ≠ [] then titleCase (dirs.getLastD "") else titleCase s

/-- The navigation title `buildNavTree` computes for a file. -/
def navTitleOf (opts : Opts) (filePath : String) (f : FileRec) : String :=
  let segments := dirSegs filePath
  let filename := lastSeg filePath
  match opts.labelBy with
  | .fn g =>
    let t := g f filePath filename
    if (filePath = "index.md" ∨ filePath = "index.html") ∧ t = "" then "Home" else t
  | .field =>
    let baseFilename := stripExt filename
    match truthyStr (jsOrStr (getNavLabel f) f.navLabel) with
    | some s => s
    | none =>
      if baseFilename = "index" ∧ segments = [] then "Home"
      else toTitleCaseCtx segments baseFilename

/-- Whether `buildNavTree` skips the file: excluded (navigation object or
direct property), rejected by a configured `pathFilter`, or no recognized
content extension. -/
def skipFile (opts : Opts) (p : String) (f : FileRec) : Bool :=
  (getNavExcludeProp f || f.navExclude) ||
  (match opts.pathFilter with
   | some φ => ¬ φ p f
   | none => false) ||
  ¬ (strEndsWith ".html" (lastSeg p) || strEndsWith ".md" (lastSeg p))

/-- The navigation item built for a processed file: title, normalized path,
the `navigation.navIndex` sort key when present, and an empty children
object.  (A frontmatter `navIndex` that is literally `Infinity` would be
dropped by the source; `SortVal` has no such value, so every present value
is kept.)  The item's key is assigned where `addToTree` stores it. -/
def navItemOf (opts : Opts) (p : String) (f : FileRec) : NavNode :=
  .mk "" (navTitleOf opts p f) (normalizePath opts.usePermalinks p) (getNavIndexProp f) []

/-- One iteration of the per-file loop, as it affects the tree. -/
def treeStep (opts : Opts) (files : List (String × FileRec)) (t : NavMap)
    (p : String) : NavMap :=
  match (files.find? (fun q => q.1 = p)).map (fun q => q.2) with
  | none => t
  | some f =>
    if skipFile opts p f then t
    else addToTree t (dirSegs p) (navItemOf opts p f) p opts

/-- The pre-sort value for `filePaths.sort(...)`: `navigation.navIndex`
first, else the file's `options.sortBy` property, else `Infinity`. -/
def presortVal (opts : Opts) (f : FileRec) : JVal :=
  match getNavIndexProp f with
  | some v => orInf (some v)
  | none =>
    orInf (match opts.sortBy with
           | some (.field nm) => fileGet f nm
           | _ => none)

/-- The file-path pre-sort comparator. -/
def presortCmp (opts : Opts) (files : List (String × FileRec)) (a b : String) : Int :=
  let fa := ((files.find? (fun q => q.1 = a)).map (fun q => q.2)).getD {}
  let fb := ((files.find? (fun q => q.1 = b)).map (fun q => q.2)).getD {}
  jsCmp opts.sortReverse (presortVal opts fa) (presortVal opts fb)

/-- The processing order of the per-file loop: the file paths, pre-sorted
when `sortBy` is truthy. -/
def orderedPaths (opts : Opts) (files : List (String × FileRec)) : List String :=
  let filePaths := files.map (fun q => q.1)
  if opts.sortBy.isSome then
    List.insertionSort (fun a b => presortCmp opts files a b ≤ 0) filePaths
  else filePaths

/-- `buildNavTree(files, options)`, tree part: fold the per-file loop over
the ordered paths, then clean up and sort. -/
def buildNavTree (files : List (String × FileRec)) (opts : Opts) : NavMap :=
  sortTree opts (cleanupTree ((orderedPaths opts files).foldl (treeStep opts files) []))

/-- The record mutation the per-file loop performs on a processed file:
`file.navigation.path` and `file.path` are set to the normalized path. -/
def fileStep (opts : Opts) (p : String) (f : FileRec) : FileRec :=
  if skipFile opts p f then f
  else
    let norm := normalizePath opts.usePermalinks p
    { f with
      navigation := some { (f.navigation.getD {}) with path := some norm }
      path := some norm }

/-- `buildNavTree`'s effect on the file records (each record's update
depends only on itself, so the loop is a map). -/
def buildNavFiles (opts : Opts) (files : List (String × FileRec)) :
    List (String × FileRec) :=
  files.map (fun q => (q.1, fileStep opts q.1 q.2))

/-! ## generateBreadcrumbs -/

/-- The home breadcrumb entry: the home node's title when the tree has one,
else the configured label; path `/` or `/index.html` by permalink policy. -/
def homeCrumb (navTree : NavMap) (opts : Opts) : Crumb :=
  ⟨(lookupKey navTree "home").elim opts.navHomeLabel NavNode.title,
   if opts.usePermalinks then "/" else "/index.html"⟩

/-- The fallback breadcrumb path for a single-segment file not found in the
tree. -/
def fallbackPath1 (opts : Opts) (fileSegment : String) : String :=
  if opts.usePermalinks then "/" ++ stripExt fileSegment ++ "/"
  else "/" ++ mdToHtml fileSegment

/-- The fallback breadcrumb path for a two-segment file whose child node is
not in the tree. -/
def fallbackPath2 (opts : Opts) (parentKey s1 : String) : String :=
  if opts.usePermalinks then "/" ++ parentKey ++ "/" ++ stripExt s1 ++ "/"
  else "/" ++ parentKey ++ "/" ++ mdToHtml s1

/-- The crumb pushed for one intermediate segment of a deeply nested path:
title-cased segment, accumulated path with `/` or `.html` appended. -/
def crumbsLoop (opts : Opts) : String → List String → List Crumb
  | _, [] => []
  | currentPath, seg :: rest =>
    let cp := currentPath ++ "/" ++ stripExt seg
    ⟨titleCase (stripExt seg), if opts.usePermalinks then cp ++ "/" else cp ++ ".html"⟩
      :: crumbsLoop opts cp rest

/-- The breadcrumb list `generateBreadcrumbs` computes for one file, or
`none` when the file is excluded (in which case nothing is written).
The computation is total: every missing tree node falls back to a
synthesized entry or contributes nothing, and never fails. -/
def breadcrumbFor (navTree : NavMap) (opts : Opts) (filePath : String)
    (f : FileRec) : Option (List Crumb) :=
  if f.navExclude then none
  else
    let home := if opts.navHomePage then [homeCrumb navTree opts] else []
    if opts.navHomePage ∧ (filePath = "index.html" ∨ filePath = "index.md") then
      some home
    else
      let segments := (splitSlash filePath).filter (fun s => s.toList.length > 0)
      some (home ++
        match segments with
        | [] => []
        | [fileSegment] =>
          let key := lowerStr (stripExt fileSegment)
          match lookupKey navTree key with
          | some nd => [⟨nd.title, nd.path⟩]
          | none => [⟨titleCase (stripExt fileSegment), fallbackPath1 opts fileSegment⟩]
        | parentKey :: s1 :: rest =>
          match lookupKey navTree parentKey with
          | none => []
          | some parent =>
            ⟨parent.title, parent.path⟩ ::
              (if rest = [] ∧ ¬ strStartsWith "index." s1 then
                let childKey := lowerStr (stripExt s1)
                match lookupKey parent.children childKey with
                | some child => [⟨child.title, child.path⟩]
                | none => [⟨titleCase (stripExt s1), fallbackPath2 opts parentKey s1⟩]
              else
                let lastSegment := segments.getLastD ""
                let isIdx := lastSegment = "index.html" ∨ lastSegment = "index.md"
                crumbsLoop opts ("/" ++ parentKey)
                  ((s1 :: rest).take (segments.length - (if isIdx then 1 else 0) - 1))))

/-- The record mutation `generateBreadcrumbs` performs on one file:
the breadcrumb array is written to `file.navigation.breadcrumb` and to
`file.breadcrumb`, except that the home-page early return writes only the
direct `breadcrumb` key. -/
def bcStep (navTree : NavMap) (opts : Opts) (p : String) (f : FileRec) : FileRec :=
  match breadcrumbFor navTree opts p f with
  | none => f
  | some bc =>
    if opts.navHomePage ∧ (p = "index.html" ∨ p = "index.md") then
      { f with breadcrumb := some bc }
    else
      { f with
        navigation := some { (f.navigation.getD {}) with breadcrumb := some bc }
        breadcrumb := some bc }

/-- `generateBreadcrumbs(files, navTree, options)`. -/
def generateBreadcrumbs (files : List (String × FileRec)) (navTree : NavMap)
    (opts : Opts) : List (String × FileRec) :=
  files.map (fun q => (q.1, bcStep navTree opts q.1 q.2))

/-- A full single-configuration run: build the tree (mutating the records'
path fields), then generate breadcrumbs; returns the tree and the final
records. -/
def runAutonav (files : List (String × FileRec)) (opts : Opts) :
    NavMap × List (String × FileRec) :=
  let tree := buildNavTree files opts
  (tree, generateBreadcrumbs (buildNavFiles opts files) tree opts)

end Autonav

namespace Autonav

/-! ## Claim-specific inputs and derived notions -/

/-- Scenario A of the spec: `{index.md, about.md, blog/index.md,
blog/post1.md}` with default options. -/
def scenarioAFiles : List (String × FileRec) :=
  [("index.md", {}), ("about.md", {}), ("blog/index.md", {}), ("blog/post1.md", {})]

/-- Scenario B of the spec: `blog/blogpost-1.html` alongside
`blog/index.html`, default options (permalinks on). -/
def scenarioBFiles : List (String × FileRec) :=
  [("blog/index.html", {}), ("blog/blogpost-1.html", {})]

/-- Number of path segments of a file's canonical (normalized) path. -/
def canonSegCount (opts : Opts) (p : String) : Nat :=
  (segsOf (normalizePath opts.usePermalinks p)).length

/-- The breadcrumb array the full run writes onto a file record. -/
def breadcrumbOf (files : List (String × FileRec)) (opts : Opts) (p : String) :
    Option (List Crumb) :=
  (((runAutonav files opts).2.find? (fun q => q.1 = p)).map (fun q => q.2)).bind
    (fun f => f.breadcrumb)

end Autonav

namespace Autonav

/-- C1.  The code, evaluated on Scenario A with default options: the
top-level keys are exactly `home`, `about`, `blog` — so the first half of
the claim holds — but the finished `blog` node's children mapping is empty:
`addToTree` nests every `blog/*` entry under an inner self-keyed `blog`
node, and `removeDuplicates` then deletes that inner node together with the
`post1` child, so no `post1` entry (path `/blog/post1/`) survives.  This
contradicts the claim and the README's documented output for this very
structure. -/
theorem c1_scenario_a_children_deleted :
    (buildNavTree scenarioAFiles {}).map NavNode.key = ["home", "about", "blog"] ∧
    (lookupKey (buildNavTree scenarioAFiles {}) "blog").map NavNode.children = some [] := by
  constructor
  · rfl
  · rfl

/-- C2.  The code, evaluated on Scenario B: the normalizer does produce
exactly `/blog/blogpost-1/` (preserving the literal basename), and
`fixMalformedPaths` leaves that path untouched — but the finished tree's
`blog` node has no children at all: the `blogpost-1` node sits under an
inner self-keyed `blog` node that `removeDuplicates` deletes wholesale, so
no child with path `/blog/blogpost-1/` exists in the result. -/
theorem c2_scenario_b_child_deleted :
    normalizePath true "blog/blogpost-1.html" = "/blog/blogpost-1/" ∧
    fixPath "/blog/blogpost-1/" = "/blog/blogpost-1/" ∧
    (lookupKey (buildNavTree scenarioBFiles {}) "blog").map NavNode.children = some [] := by
  refine ⟨?_, ?_, ?_⟩
  · rfl
  · rfl
  · rfl

/-- C4 counterexample.  For the single file `a/b/c.md` with default options
(home entry included), the written breadcrumb has four entries
(`Home`, `A`, `B`, `C`) while the file's canonical path `/a/c/` has two
segments, so the claimed length `(1) + 2 = 3` is wrong; and the last
entry's path `/a/b/c/` differs from the file's normalized path `/a/c/`
(the normalizer drops intermediate directories for nested files). -/
theorem c4_counterexample :
    breadcrumbOf [("a/b/c.md", {})] {} "a/b/c.md" =
      some [⟨"Home", "/"⟩, ⟨"A", "/a/"⟩, ⟨"B", "/a/b/"⟩, ⟨"C", "/a/b/c/"⟩] ∧
    canonSegCount {} "a/b/c.md" = 2 ∧
    normalizePath true "a/b/c.md" = "/a/c/" ∧
    ¬ ((breadcrumbOf [("a/b/c.md", {})] {} "a/b/c.md").map List.length =
        some (1 + canonSegCount {} "a/b/c.md")) ∧
    ¬ ((breadcrumbOf [("a/b/c.md", {})] {} "a/b/c.md").map
          (fun l => (l.getLast?).map Crumb.path) =
        some (some (normalizePath true "a/b/c.md"))) := by
  refine ⟨rfl, rfl, rfl, ?_, ?_⟩
  · decide
  · decide

/-- A sibling set in which every node lacks the configured sort key
(the default configuration reads `navIndex` on nodes, which store their
sort key as `index`), so every comparison ties. -/
def c6TieTree : NavMap :=
  [NavNode.mk "a" "A" "/a/" none [], NavNode.mk "b" "B" "/b/" none []]

/-- C6 counterexample.  With the default (non-function) configuration and
two sibling nodes whose comparator values tie, the stable sort leaves the
order `[a, b]` unchanged whether or not `sortReverse` is set — so the
sorted order with `sortReverse` is NOT the reverse of the order without
it. -/
theorem c6_counterexample :
    (sortTree { sortReverse := true } c6TieTree).map NavNode.key = ["a", "b"] ∧
    (sortTree {} c6TieTree).map NavNode.key = ["a", "b"] ∧
    (sortTree { sortReverse := true } c6TieTree).map NavNode.key ≠
      ((sortTree {} c6TieTree).map NavNode.key).reverse := by
  refine ⟨rfl, rfl, ?_⟩
  decide

end Autonav

namespace Autonav

/-- Breadcrumb generation is total on non-excluded files: some list is
always produced. -/
theorem breadcrumbFor_isSome (navTree : NavMap) (opts : Opts) (p : String)
    (f : FileRec) (hex : f.navExclude = false) :
    ∃ bc, breadcrumbFor navTree opts p f = some bc := by
  unfold breadcrumbFor
  rw [hex]
  simp only [Bool.false_eq_true, if_false]
  by_cases hidx : opts.navHomePage ∧ (p = "index.html" ∨ p = "index.md")
  · rw [if_pos hidx]
    exact ⟨_, rfl⟩
  · rw [if_neg hidx]
    exact ⟨_, rfl⟩

/-- Whatever breadcrumb list is produced is written to the file's direct
`breadcrumb` key. -/
theorem bcStep_breadcrumb_eq (navTree : NavMap) (opts : Opts) (p : String)
    (f : FileRec) (bc : List Crumb) (h : breadcrumbFor navTree opts p f = some bc) :
    (bcStep navTree opts p f).breadcrumb = some bc := by
  unfold bcStep
  rw [h]
  by_cases hc : opts.navHomePage ∧ (p = "index.html" ∨ p = "index.md") <;> simp [hc]

end Autonav

namespace Autonav

/-- C7.  For every non-excluded file, breadcrumb generation is total (some
breadcrumb list is always produced, never an error); the produced list is
written onto the file record at the `breadcrumb` key (and, outside the
home-page early return, also onto the navigation object); every file of the
collection is processed; and a single-segment file whose key has no
matching node in the tree gets a synthesized fallback entry, title-cased
with a path recomputed under the permalink policy. -/
theorem c7_breadcrumb_total_fallback (navTree : NavMap) (opts : Opts) (p : String)
    (f : FileRec) (files : List (String × FileRec))
    (hex : f.navExclude = false) :
    (∃ bc, breadcrumbFor navTree opts p f = some bc) ∧
    (∀ bc, breadcrumbFor navTree opts p f = some bc →
      (bcStep navTree opts p f).breadcrumb = some bc ∧
      (¬ (opts.navHomePage ∧ (p = "index.html" ∨ p = "index.md")) →
        ((bcStep navTree opts p f).navigation.getD {}).breadcrumb = some bc)) ∧
    ((p, f) ∈ files →
      (p, bcStep navTree opts p f) ∈ generateBreadcrumbs files navTree opts) ∧
    (∀ (h1 : ¬ (opts.navHomePage ∧ (p = "index.html" ∨ p = "index.md")))
       (h2 : (splitSlash p).filter (fun s => s.toList.length > 0) = [p])
       (h3 : lookupKey navTree (lowerStr (stripExt p)) = none),
       breadcrumbFor navTree opts p f =
         some ((if opts.navHomePage then [homeCrumb navTree opts] else []) ++
           [⟨titleCase (stripExt p), fallbackPath1 opts p⟩])) := by
  refine ⟨breadcrumbFor_isSome navTree opts p f hex, ?_, ?_, ?_⟩
  · intro bc hbc
    refine ⟨bcStep_breadcrumb_eq navTree opts p f bc hbc, ?_⟩
    intro hni
    unfold bcStep
    rw [hbc]
    simp [hni]
  · intro hmem
    unfold generateBreadcrumbs
    exact List.mem_map.mpr ⟨(p, f), hmem, rfl⟩
  · intro h1 h2 h3
    unfold breadcrumbFor
    rw [hex]
    simp only [Bool.false_eq_true, if_false]
    rw [if_neg h1, h2]
    simp [h3]

/-- C7 witness: a concrete non-excluded single-segment file against the
empty tree. -/
theorem c7_breadcrumb_total_fallback_witness :
    (({} : FileRec).navExclude = false) ∧
    ((∃ bc, breadcrumbFor [] {} "contact.md" {} = some bc) ∧
    (∀ bc, breadcrumbFor [] {} "contact.md" {} = some bc →
      (bcStep [] {} "contact.md" {}).breadcrumb = some bc ∧
      (¬ (({} : Opts).navHomePage ∧ ("contact.md" = "index.html" ∨ "contact.md" = "index.md")) →
        ((bcStep [] {} "contact.md" {}).navigation.getD {}).breadcrumb = some bc)) ∧
    (("contact.md", ({} : FileRec)) ∈ [("contact.md", ({} : FileRec))] →
      ("contact.md", bcStep [] {} "contact.md" {}) ∈
        generateBreadcrumbs [("contact.md", {})] [] {}) ∧
    (∀ (_ : ¬ (({} : Opts).navHomePage ∧ ("contact.md" = "index.html" ∨ "contact.md" = "index.md")))
       (_ : (splitSlash "contact.md").filter (fun s => s.toList.length > 0) = ["contact.md"])
       (_ : lookupKey ([] : NavMap) (lowerStr (stripExt "contact.md")) = none),
       breadcrumbFor [] {} "contact.md" {} =
         some ((if ({} : Opts).navHomePage then [homeCrumb [] {}] else []) ++
           [⟨titleCase (stripExt "contact.md"), fallbackPath1 {} "contact.md"⟩]))) :=
  ⟨rfl, c7_breadcrumb_total_fallback [] {} "contact.md" {} [("contact.md", {})] rfl⟩

/-- C10.  A file that the tree builder skips (here: rejected by the
content-extension check or a pathFilter inside `skipFile`) contributes no
change to the navigation tree, yet — as long as it is not marked excluded —
still receives a breadcrumb at the `breadcrumb` key: the extension and
pathFilter checks are applied only during tree building. -/
theorem c10_skipped_file_gets_breadcrumb (opts : Opts)
    (files : List (String × FileRec)) (navTree t : NavMap) (p : String) (f : FileRec)
    (hfind : (files.find? (fun q => q.1 = p)).map (fun q => q.2) = some f)
    (hskip : skipFile opts p f = true)
    (hex : f.navExclude = false) :
    treeStep opts files t p = t ∧
    ∃ bc, breadcrumbFor navTree opts p f = some bc ∧
      (bcStep navTree opts p f).breadcrumb = some bc := by
  constructor
  · unfold treeStep
    rw [hfind]
    simp [hskip]
  · obtain ⟨bc, hbc⟩ := breadcrumbFor_isSome navTree opts p f hex
    exact ⟨bc, hbc, bcStep_breadcrumb_eq navTree opts p f bc hbc⟩

/-- C10 witness: a `.css` file (no content extension) with default options
is skipped by the tree builder yet breadcrumbed. -/
theorem c10_skipped_file_gets_breadcrumb_witness :
    (((([("style.css", ({} : FileRec))].find? (fun q => q.1 = "style.css")).map
        (fun q => q.2) = some ({} : FileRec)) ∧
      skipFile {} "style.css" {} = true ∧
      (({} : FileRec).navExclude = false)) ∧
    (treeStep {} [("style.css", {})] [] "style.css" = [] ∧
      ∃ bc, breadcrumbFor [] {} "style.css" {} = some bc ∧
        (bcStep [] {} "style.css" {}).breadcrumb = some bc)) :=
  ⟨⟨rfl, by decide, rfl⟩,
    c10_skipped_file_gets_breadcrumb {} [("style.css", {})] [] [] "style.css" {}
      rfl (by decide) rfl⟩

end Autonav

namespace Autonav

/-! ## String lemmas for the path normalizer -/

theorem strMk_toList (s : String) : (⟨s.toList⟩ : String) = s := by
  cases s
  rfl

theorem toList_ne_nil {p : String} (hp : p ≠ "") : p.toList ≠ [] := by
  intro h
  apply hp
  have := congrArg (fun l => (⟨l⟩ : String)) h
  simpa [strMk_toList] using this

theorem strToList_append (s t : String) :
    (s ++ t).toList = s.toList ++ t.toList :=
  String.data_append s t

/-- A backslash-free string is unchanged by the separator normalization. -/
theorem backslashToSlash_id (s : String) (h : ¬ '\\' ∈ s.toList) :
    backslashToSlash s = s := by
  unfold backslashToSlash
  have hmap : s.toList.map (fun c => if c = '\\' then '/' else c) = s.toList.map id := by
    apply List.map_congr_left
    intro c hc
    have hne : c ≠ '\\' := fun he => h (he ▸ hc)
    simp [hne]
  rw [hmap, List.map_id, strMk_toList]

theorem strEndsWith_slash_iff (s : String) :
    strEndsWith "/" s = true ↔ s.toList.getLast? = some '/' := by
  unfold strEndsWith
  rw [List.isSuffixOf_iff_suffix]
  constructor
  · rintro ⟨t, ht⟩
    rw [← ht]
    exact List.getLast?_concat t
  · intro h
    have hd := List.dropLast_append_getLast? '/' h
    exact ⟨s.toList.dropLast, hd⟩

theorem strEndsWith_append_html (x : String) :
    strEndsWith "/" (x ++ ".html") = false := by
  rw [Bool.eq_false_iff]
  intro hc
  rw [strEndsWith_slash_iff] at hc
  have hx : (x ++ ".html").toList = (x.toList ++ ['.', 'h', 't', 'm']) ++ ['l'] := by
    rw [strToList_append]
    simp [String.toList]
  rw [hx, List.getLast?_concat] at hc
  exact absurd (Option.some.inj hc) (by decide)

theorem noBackslash_mdToHtml {p : String} (hb : ¬ '\\' ∈ p.toList) :
    ¬ '\\' ∈ (mdToHtml p).toList := by
  unfold mdToHtml
  by_cases hmd : strEndsWith ".md" p = true
  · rw [if_pos hmd]
    intro hmem
    rw [strToList_append] at hmem
    rcases List.mem_append.mp hmem with h1 | h2
    · exact hb (List.take_subset _ _ h1)
    · exact absurd h2 (by decide)
  · rw [if_neg hmd]
    exact hb

theorem strStartsWith_ensureLeadSlash (s : String) :
    strStartsWith "/" (ensureLeadSlash s) = true := by
  unfold ensureLeadSlash
  by_cases h : strStartsWith "/" s = true
  · rw [if_pos h]
    exact h
  · rw [if_neg (by simpa using h)]
    show ("/".toList.isPrefixOf ("/" ++ s).toList) = true
    rw [strToList_append]
    simp [String.toList, List.isPrefixOf]

theorem splitSlash_cons_slash (s : String) :
    splitSlash ("/" ++ s) = "" :: splitSlash s := by
  unfold splitSlash
  rw [strToList_append]
  show ((('/' :: s.toList) : List Char).splitOn '/').map _ = _
  rw [List.splitOn, List.splitOnP_cons]
  simp [List.splitOn]

theorem segsOf_ensureLeadSlash (s : String) :
    segsOf (ensureLeadSlash s) = segsOf s := by
  unfold ensureLeadSlash
  by_cases h : strStartsWith "/" s = true
  · rw [if_pos h]
  · rw [if_neg (by simpa using h)]
    unfold segsOf
    rw [splitSlash_cons_slash]
    simp

theorem strEndsWith_ensureLeadSlash (s : String) (hs : s ≠ "") :
    strEndsWith "/" (ensureLeadSlash s) = strEndsWith "/" s := by
  unfold ensureLeadSlash
  by_cases h : strStartsWith "/" s = true
  · rw [if_pos h]
  · rw [if_neg (by simpa using h)]
    have hl : ("/" ++ s).toList.getLast? = s.toList.getLast? := by
      rw [strToList_append]
      exact List.getLast?_append_of_ne_nil _ (toList_ne_nil hs)
    have hiff : (strEndsWith "/" ("/" ++ s) = true) ↔ (strEndsWith "/" s = true) := by
      rw [strEndsWith_slash_iff, strEndsWith_slash_iff, hl]
    exact Bool.eq_iff_iff.mpr hiff

end Autonav

namespace Autonav

/-- C8.  With `usePermalinks` off the normalizer swaps only a `.md`
extension for `.html` and passes every other name (in particular `.html`
files) through unchanged apart from guaranteeing a leading slash; the
segment structure of the extension-swapped path is preserved, and no
trailing slash is produced for a nonempty input that had none.  In
particular `about.md` normalizes to `/about.html`. -/
theorem c8_no_permalink_normalization (p : String)
    (hb : ¬ '\\' ∈ p.toList) (hp : p ≠ "") (hs : strEndsWith "/" p = false) :
    normalizePath false "about.md" = "/about.html" ∧
    (strEndsWith ".md" p = true →
      normalizePath false p = ensureLeadSlash (strDropLast p 3 ++ ".html")) ∧
    (strEndsWith ".md" p = false → normalizePath false p = ensureLeadSlash p) ∧
    segsOf (normalizePath false p) = segsOf (mdToHtml p) ∧
    strEndsWith "/" (normalizePath false p) = false := by
  have hnp : normalizePath false p = ensureLeadSlash (mdToHtml p) := by
    show ensureLeadSlash (backslashToSlash (rawUrlPath false p)) = _
    have hraw : rawUrlPath false p = mdToHtml p := rfl
    rw [hraw, backslashToSlash_id _ (noBackslash_mdToHtml hb)]
  refine ⟨rfl, ?_, ?_, ?_, ?_⟩
  · intro hmd
    rw [hnp]
    unfold mdToHtml
    rw [if_pos hmd]
  · intro hmd
    rw [hnp]
    unfold mdToHtml
    rw [if_neg (by simp [hmd])]
  · rw [hnp, segsOf_ensureLeadSlash]
  · rw [hnp]
    cases hmd : strEndsWith ".md" p with
    | true =>
      have hx : mdToHtml p = strDropLast p 3 ++ ".html" := by
        unfold mdToHtml
        rw [if_pos hmd]
      rw [hx]
      unfold ensureLeadSlash
      by_cases hst : strStartsWith "/" (strDropLast p 3 ++ ".html") = true
      · rw [if_pos hst]
        exact strEndsWith_append_html _
      · rw [if_neg (by simpa using hst), ← String.append_assoc]
        exact strEndsWith_append_html _
    | false =>
      have hx : mdToHtml p = p := by
        unfold mdToHtml
        rw [if_neg (by simp [hmd])]
      rw [hx, strEndsWith_ensureLeadSlash p hp]
      exact hs

/-- C8 witness: the nested markdown file `docs/guide.md`. -/
theorem c8_no_permalink_normalization_witness :
    ((¬ '\\' ∈ "docs/guide.md".toList) ∧ "docs/guide.md" ≠ "" ∧
      strEndsWith "/" "docs/guide.md" = false) ∧
    (normalizePath false "about.md" = "/about.html" ∧
     (strEndsWith ".md" "docs/guide.md" = true →
       normalizePath false "docs/guide.md" =
         ensureLeadSlash (strDropLast "docs/guide.md" 3 ++ ".html")) ∧
     (strEndsWith ".md" "docs/guide.md" = false →
       normalizePath false "docs/guide.md" = ensureLeadSlash "docs/guide.md") ∧
     segsOf (normalizePath false "docs/guide.md") = segsOf (mdToHtml "docs/guide.md") ∧
     strEndsWith "/" (normalizePath false "docs/guide.md") = false) :=
  ⟨⟨by decide, by decide, by decide⟩,
    c8_no_permalink_normalization "docs/guide.md" (by decide) (by decide) (by decide)⟩

end Autonav

namespace Autonav

/-! ## Object-write lemmas and path splitting for the index-merge claim -/

theorem keyed_key (k : String) (n : NavNode) : (NavNode.keyed k n).key = k := by
  cases n
  rfl

theorem keyed_of_key_eq {n : NavNode} {k : String} (h : n.key = k) :
    NavNode.keyed k n = n := by
  cases n with
  | mk k0 t p i c =>
    simp [NavNode.key] at h
    subst h
    rfl

theorem lookupKey_setKey_self (m : NavMap) (k : String) (v : NavNode) :
    lookupKey (setKey m k v) k = some (NavNode.keyed k v) := by
  induction m with
  | nil => simp [setKey, lookupKey, List.find?, keyed_key]
  | cons n rest ih =>
    unfold setKey
    by_cases h : n.key = k
    · rw [if_pos h]
      simp [lookupKey, List.find?, keyed_key]
    · rw [if_neg h]
      unfold lookupKey
      rw [List.find?_cons_of_neg _ (by simpa using h)]
      exact ih

theorem setKey_cons (n : NavNode) (rest : NavMap) (k : String) (v : NavNode) :
    setKey (n :: rest) k v =
      if n.key = k then NavNode.keyed k v :: rest else n :: setKey rest k v := rfl

theorem setKey_setKey (m : NavMap) (k : String) (v w : NavNode) :
    setKey (setKey m k v) k w = setKey m k w := by
  induction m with
  | nil => simp [setKey, keyed_key]
  | cons n rest ih =>
    by_cases h : n.key = k
    · rw [setKey_cons n rest k v, if_pos h, setKey_cons, if_pos (keyed_key k v),
        setKey_cons n rest k w, if_pos h]
    · rw [setKey_cons n rest k v, if_neg h, setKey_cons, if_neg h, ih,
        setKey_cons n rest k w, if_neg h]

/-- `split('/')` of `d + '/' + n` for separator-free `d` and `n`. -/
theorem splitSlash_sep (d n : String) (hd : ¬ '/' ∈ d.toList)
    (hn : ¬ '/' ∈ n.toList) : splitSlash (d ++ "/" ++ n) = [d, n] := by
  unfold splitSlash
  have h1 : (d ++ "/" ++ n).toList = d.toList ++ '/' :: n.toList := by
    rw [strToList_append, strToList_append]
    simp [String.toList]
  rw [h1]
  have hpx : ∀ x ∈ d.toList, ¬ ((x == '/') = true) := by
    intro x hx hc
    exact hd (by simpa using (eq_of_beq hc) ▸ hx)
  have h2 : (d.toList ++ '/' :: n.toList).splitOn '/' = [d.toList, n.toList] := by
    unfold List.splitOn
    rw [List.splitOnP_first _ _ hpx '/' (by simp)]
    rw [List.splitOnP_eq_single]
    intro x hx hc
    exact hn (by simpa using (eq_of_beq hc) ▸ hx)
  rw [h2]
  simp [strMk_toList]

/-- `navItem.index !== undefined ? navItem.index : fallback`. -/
def idxOr (a b : Option SortVal) : Option SortVal :=
  match a with
  | some i => some i
  | none => b

/-- The `segmentPath` computed at recursion depth 0 for a two-segment
non-index position. -/
def segPath0 (opts : Opts) (segs : List String) : String :=
  if opts.usePermalinks then currentPathAt opts.usePermalinks segs 0
  else dropTrailSlash (currentPathAt opts.usePermalinks segs 0) ++ ".html"

/-- The guarded leaf insertion (`if (!node[parentKey].children[key])`). -/
def leafIns (kids : NavMap) (key : String) (navItem : NavNode) : NavMap :=
  match lookupKey kids key with
  | some _ => kids
  | none => setKey kids key navItem

end Autonav

namespace Autonav

/-- C3.  The index-file merge of `buildTreeRecursively`: when the
directory already has a node, processing `dir/index.*` overwrites that
node's title and path with the index file's data, overwrites its sort index
exactly when the index file provides one (`idxOr`), and preserves the
children already attached; and `addToTree` applications for the directory's
index file and for any non-index sibling leaf commute, so the final tree
does not depend on whether the index file is processed before or after the
directory's other children. -/
theorem c3_index_merge_order_independent (opts : Opts) (t m : NavMap)
    (base : NavNode) (d nI n2 : String) (navI navL : NavNode)
    (hI : nI = "index.md" ∨ nI = "index.html")
    (hd : ¬ '/' ∈ d.toList) (hn : ¬ '/' ∈ n2.toList)
    (h2 : ¬ (n2 = "index.html" ∨ n2 = "index.md"))
    (hbase : lookupKey m (stripExt d) = some base) :
    buildTreeRec opts navI [d, nI] m 1 =
      setKey m (stripExt d)
        (NavNode.mk (stripExt d) navI.title navI.path
          (idxOr navI.index base.index) base.children) ∧
    addToTree (addToTree t [d] navI (d ++ "/" ++ nI) opts) [d] navL
        (d ++ "/" ++ n2) opts =
      addToTree (addToTree t [d] navL (d ++ "/" ++ n2) opts) [d] navI
        (d ++ "/" ++ nI) opts := by
  have hnI : ¬ '/' ∈ nI.toList := by
    rcases hI with h | h <;> subst h <;> decide
  have hRI : ∀ (mm : NavMap), buildTreeRecF opts navI [d, nI] 1 mm 1 =
      setKey mm (stripExt d)
        (NavNode.mk (stripExt d) navI.title navI.path
          (idxOr navI.index
            (((lookupKey mm (stripExt d)).getD
              (freshDirNode (stripExt d)
                (currentPathAt opts.usePermalinks [d, nI] 1))).index))
          ((lookupKey mm (stripExt d)).getD
            (freshDirNode (stripExt d)
              (currentPathAt opts.usePermalinks [d, nI] 1))).children) := by
    intro mm
    rcases hI with h | h <;> subst h <;>
      (cases hu : opts.usePermalinks <;> (unfold buildTreeRecF; rw [hu]; rfl))
  have hRL : ∀ (mm : NavMap), buildTreeRecF opts navL [d, n2] 1 mm 1 =
      setKey mm (stripExt d)
        (NavNode.mk (stripExt d)
          ((lookupKey mm (stripExt d)).getD
            (freshDirNode (stripExt d)
              (parentPathAt opts.usePermalinks [d, n2] 1))).title
          ((lookupKey mm (stripExt d)).getD
            (freshDirNode (stripExt d)
              (parentPathAt opts.usePermalinks [d, n2] 1))).path
          ((lookupKey mm (stripExt d)).getD
            (freshDirNode (stripExt d)
              (parentPathAt opts.usePermalinks [d, n2] 1))).index
          (leafIns
            ((lookupKey mm (stripExt d)).getD
              (freshDirNode (stripExt d)
                (parentPathAt opts.usePermalinks [d, n2] 1))).children
            (stripExt n2) navL)) := by
    intro mm
    unfold buildTreeRecF
    rw [if_neg (by simp)]
    rw [if_neg (show ¬ ((1 : Nat) = [d, n2].length - 1 ∧
        ([d, n2].getD 1 "" = "index.html" ∨ [d, n2].getD 1 "" = "index.md")) from by
      simp [List.getD]
      exact ⟨fun h => h2 (Or.inl h), fun h => h2 (Or.inr h)⟩)]
    rw [if_pos (show (1 : Nat) = [d, n2].length - 1 from by simp)]
    rw [if_neg (show ¬ (1 : Nat) = 0 from by simp)]
    rfl
  have hOut : ∀ (nav : NavNode) (x : String) (u : NavMap),
      buildTreeRecF opts nav [d, x] 2 u 0 =
        setKey u (stripExt d)
          (NavNode.mk (stripExt d)
            ((lookupKey u (stripExt d)).getD
              (freshDirNode (stripExt d) (segPath0 opts [d, x]))).title
            ((lookupKey u (stripExt d)).getD
              (freshDirNode (stripExt d) (segPath0 opts [d, x]))).path
            ((lookupKey u (stripExt d)).getD
              (freshDirNode (stripExt d) (segPath0 opts [d, x]))).index
            (buildTreeRecF opts nav [d, x] 1
              ((lookupKey u (stripExt d)).getD
                (freshDirNode (stripExt d) (segPath0 opts [d, x]))).children
              1)) := by
    intro nav x u
    unfold buildTreeRecF segPath0
    rw [if_neg (show ¬ ([d, x].length ≤ 0) from by simp)]
    rw [if_neg (show ¬ ((0 : Nat) = [d, x].length - 1 ∧
        ([d, x].getD 0 "" = "index.html" ∨ [d, x].getD 0 "" = "index.md")) from by simp)]
    rw [if_neg (show ¬ ((0 : Nat) = [d, x].length - 1) from by simp)]
    rfl
  have hAdd : ∀ (nav : NavNode) (x : String) (u : NavMap), ¬ '/' ∈ x.toList →
      addToTree u [d] nav (d ++ "/" ++ x) opts =
        buildTreeRecF opts nav [d, x] 2 u 0 := by
    intro nav x u hx
    unfold addToTree
    rw [if_neg (by simp)]
    rw [splitSlash_sep d x hd hx]
    rfl
  have hsp : segPath0 opts [d, nI] = segPath0 opts [d, n2] := by
    rcases hI with h | h <;> subst h <;> rfl
  have hcomm : ∀ (mm : NavMap),
      buildTreeRecF opts navL [d, n2] 1 (buildTreeRecF opts navI [d, nI] 1 mm 1) 1 =
        buildTreeRecF opts navI [d, nI] 1 (buildTreeRecF opts navL [d, n2] 1 mm 1) 1 := by
    intro mm
    rw [hRI mm, hRL mm, hRL, hRI, lookupKey_setKey_self, lookupKey_setKey_self,
      setKey_setKey, setKey_setKey]
    cases hb : lookupKey mm (stripExt d) with
    | some b => rfl
    | none => rfl
  constructor
  · have h1 : buildTreeRec opts navI [d, nI] m 1 = buildTreeRecF opts navI [d, nI] 1 m 1 := rfl
    rw [h1, hRI m, hbase]
    rfl
  · rw [hAdd navI nI t hnI, hAdd navL n2 _ hn, hAdd navL n2 t hn, hAdd navI nI _ hnI]
    rw [hOut navI nI t, hOut navL n2 t, hOut navL n2 _, hOut navI nI _]
    rw [hsp]
    rw [lookupKey_setKey_self, lookupKey_setKey_self, setKey_setKey, setKey_setKey]
    simp only [Option.getD_some, NavNode.keyed, NavNode.title, NavNode.path,
      NavNode.index, NavNode.children]
    rw [hcomm]

/-- C3 witness: directory `docs` with an existing node, its index file and
a sibling `page.md`, default options. -/
theorem c3_index_merge_order_independent_witness :
    (("index.md" = "index.md" ∨ "index.md" = "index.html") ∧
     (¬ '/' ∈ "docs".toList) ∧ (¬ '/' ∈ "page.md".toList) ∧
     (¬ ("page.md" = "index.html" ∨ "page.md" = "index.md")) ∧
     lookupKey [NavNode.mk "docs" "D" "/d/" none []] (stripExt "docs") =
       some (NavNode.mk "docs" "D" "/d/" none [])) ∧
    (buildTreeRec {} (NavNode.mk "" "Docs" "/docs/" (some (.num 2)) [])
        ["docs", "index.md"] [NavNode.mk "docs" "D" "/d/" none []] 1 =
      setKey [NavNode.mk "docs" "D" "/d/" none []] (stripExt "docs")
        (NavNode.mk (stripExt "docs")
          (NavNode.mk "" "Docs" "/docs/" (some (.num 2)) []).title
          (NavNode.mk "" "Docs" "/docs/" (some (.num 2)) []).path
          (idxOr (NavNode.mk "" "Docs" "/docs/" (some (.num 2)) []).index
            (NavNode.mk "docs" "D" "/d/" none []).index)
          (NavNode.mk "docs" "D" "/d/" none []).children) ∧
      addToTree
          (addToTree [] ["docs"] (NavNode.mk "" "Docs" "/docs/" (some (.num 2)) [])
            ("docs" ++ "/" ++ "index.md") {}) ["docs"]
          (NavNode.mk "" "Page" "/docs/page/" none []) ("docs" ++ "/" ++ "page.md") {} =
        addToTree
            (addToTree [] ["docs"] (NavNode.mk "" "Page" "/docs/page/" none [])
              ("docs" ++ "/" ++ "page.md") {}) ["docs"]
            (NavNode.mk "" "Docs" "/docs/" (some (.num 2)) [])
            ("docs" ++ "/" ++ "index.md") {}) :=
  ⟨⟨Or.inl rfl, by decide, by decide, by decide, rfl⟩,
    c3_index_merge_order_independent {} []
      [NavNode.mk "docs" "D" "/d/" none []] (NavNode.mk "docs" "D" "/d/" none [])
      "docs" "index.md" "page.md"
      (NavNode.mk "" "Docs" "/docs/" (some (.num 2)) [])
      (NavNode.mk "" "Page" "/docs/page/" none [])
      (Or.inl rfl) (by decide) (by decide) (by decide) rfl⟩

end Autonav

namespace Autonav

/-! ## Single-segment permalink normalization -/

theorem splitSlash_single (p : String) (hsl : ¬ '/' ∈ p.toList) :
    splitSlash p = [p] := by
  unfold splitSlash
  have h1 : p.toList.splitOn '/' = [p.toList] := by
    unfold List.splitOn
    apply List.splitOnP_eq_single
    intro x hx hc
    exact hsl ((eq_of_beq hc) ▸ hx)
  rw [h1]
  simp [strMk_toList]

theorem strEndsWith_getLast {t s : String} (h : strEndsWith t s = true)
    (ht : t.toList ≠ []) : s.toList.getLast? = t.toList.getLast? := by
  unfold strEndsWith at h
  rw [List.isSuffixOf_iff_suffix] at h
  rcases h with ⟨u, hu⟩
  rw [← hu, List.getLast?_append_of_ne_nil u ht]

theorem strStartsWith_slash_iff (s : String) :
    strStartsWith "/" s = true ↔ s.toList.head? = some '/' := by
  unfold strStartsWith
  rw [List.isPrefixOf_iff_prefix]
  constructor
  · rintro ⟨u, hu⟩
    rw [← hu]
    rfl
  · intro h
    cases hl : s.toList with
    | nil => rw [hl] at h; cases h
    | cons c cs =>
      rw [hl] at h
      have hc : c = '/' := by simpa using h
      exact ⟨cs, by rw [hc]; rfl⟩

theorem toList_stripExt_subset (p : String) : (stripExt p).toList ⊆ p.toList := by
  unfold stripExt strDropLast
  by_cases h1 : strEndsWith ".html" p = true
  · rw [if_pos h1]
    intro c hc
    exact List.take_subset _ _ hc
  · rw [if_neg h1]
    by_cases h2 : strEndsWith ".md" p = true
    · rw [if_pos h2]
      intro c hc
      exact List.take_subset _ _ hc
    · rw [if_neg h2]
      exact fun c hc => hc

/-- For a separator-free, backslash-free, non-index single content file,
the permalink normalizer yields exactly `/<basename>/`. -/
theorem normalizePath_single (p : String)
    (hsl : ¬ '/' ∈ p.toList) (hbs : ¬ '\\' ∈ p.toList)
    (hmd : strEndsWith ".md" p = true ∨ strEndsWith ".html" p = true)
    (hnidx : strEndsWith "index.md" p = false ∧ strEndsWith "index.html" p = false)
    (hne : stripExt p ≠ "") :
    normalizePath true p = "/" ++ (stripExt p ++ "/") := by
  have hext : extToSlash p = stripExt p ++ "/" := by
    rcases hmd with h | h
    · have hh : strEndsWith ".html" p = false := by
        rw [Bool.eq_false_iff]
        intro hc
        have g1 := strEndsWith_getLast h (by decide)
        have g2 := strEndsWith_getLast hc (by decide)
        rw [g1] at g2
        exact absurd (Option.some.inj g2) (by decide)
      simp [extToSlash, stripExt, h, hh]
    · have hh : strEndsWith ".md" p = false := by
        rw [Bool.eq_false_iff]
        intro hc
        have g1 := strEndsWith_getLast h (by decide)
        have g2 := strEndsWith_getLast hc (by decide)
        rw [g1] at g2
        exact absurd (Option.some.inj g2) (by decide)
      simp [extToSlash, stripExt, h, hh]
  have hnb2 : ¬ '\\' ∈ (stripExt p ++ "/").toList := by
    rw [strToList_append]
    intro hc
    rcases List.mem_append.mp hc with h | h
    · exact hbs (toList_stripExt_subset p h)
    · exact absurd h (by decide)
  have hraw : rawUrlPath true p = stripExt p ++ "/" := by
    unfold rawUrlPath
    rw [if_pos (show (true : Bool) = true from rfl)]
    rw [if_neg (show ¬ (strEndsWith "index.md" p = true ∨
        strEndsWith "index.html" p = true) from by
      intro hc
      rcases hc with hc | hc
      · rw [hnidx.1] at hc; cases hc
      · rw [hnidx.2] at hc; cases hc)]
    rw [splitSlash_single p hsl]
    simp only [List.length_cons, List.length_nil, gt_iff_lt]
    rw [if_neg (by simp)]
    rw [hext, backslashToSlash_id _ hnb2]
  have hnostart : strStartsWith "/" (stripExt p ++ "/") = false := by
    rw [Bool.eq_false_iff]
    intro hc
    rw [strStartsWith_slash_iff] at hc
    cases hx : (stripExt p).toList with
    | nil =>
      exact hne (by
        have h2 := congrArg (fun l => (⟨l⟩ : String)) hx
        simpa [strMk_toList] using h2)
    | cons c cs =>
      rw [strToList_append, hx] at hc
      simp at hc
      exact hsl (toList_stripExt_subset p (by
        rw [hx]
        exact hc ▸ List.mem_cons_self c cs))
  unfold normalizePath
  rw [hraw, backslashToSlash_id _ hnb2]
  unfold ensureLeadSlash
  rw [hnostart]
  simp

/-- Filtered segments of `/<x>/` are exactly `[x]`. -/
theorem segsOf_wrapped (x : String) (hx : x ≠ "") (hsl : ¬ '/' ∈ x.toList) :
    segsOf ("/" ++ (x ++ "/")) = [x] := by
  unfold segsOf
  have h1 : splitSlash ("/" ++ (x ++ "/")) = ["", x, ""] := by
    unfold splitSlash
    have ht : ("/" ++ (x ++ "/")).toList = '/' :: (x.toList ++ ['/']) := by
      rw [strToList_append, strToList_append]
      simp [String.toList]
    rw [ht]
    have h2 : (('/' :: (x.toList ++ ['/'])) : List Char).splitOn '/' =
        [] :: (x.toList ++ ['/']).splitOn '/' := by
      unfold List.splitOn
      rw [List.splitOnP_cons]
      simp [List.splitOn]
    have h3 : ((x.toList ++ ['/']) : List Char).splitOn '/' = [x.toList, []] := by
      unfold List.splitOn
      rw [show (x.toList ++ ['/'] : List Char) = x.toList ++ '/' :: [] from rfl]
      rw [List.splitOnP_first _ _ ?hx '/' (by simp)]
      · rfl
      · intro y hy hc
        exact hsl ((eq_of_beq hc) ▸ hy)
    rw [h2, h3]
    simp [strMk_toList]
  rw [h1]
  simp [hx]

end Autonav

namespace Autonav

/-- C4 (amended).  For a non-excluded single-segment content file that is
not an index file, with home entry enabled and permalinks on, and against a
tree whose consulted node (if any) carries the file's canonical path: the
breadcrumb is produced, its length is `1 + (number of segments of the
file's canonical path)`, and the last entry's path is the file's own
normalized path (via the tree node, or via the synthesized fallback).
The original unrestricted claim is refuted by `c4_counterexample`: for
nested files the normalizer drops intermediate directories while the
breadcrumb walks them all, so neither the length equation nor the
last-entry equation holds in general. -/
theorem c4_amended_breadcrumb_shape (navTree : NavMap) (opts : Opts)
    (p : String) (f : FileRec)
    (h1 : opts.navHomePage = true) (h2 : opts.usePermalinks = true)
    (hex : f.navExclude = false)
    (hsl : ¬ '/' ∈ p.toList) (hbs : ¬ '\\' ∈ p.toList)
    (hmd : strEndsWith ".md" p = true ∨ strEndsWith ".html" p = true)
    (hpi : ¬ (p = "index.html" ∨ p = "index.md"))
    (hnidx : strEndsWith "index.md" p = false ∧ strEndsWith "index.html" p = false)
    (hne : stripExt p ≠ "")
    (hcons : ∀ nd, lookupKey navTree (lowerStr (stripExt p)) = some nd →
      nd.path = normalizePath opts.usePermalinks p) :
    ∃ bc, breadcrumbFor navTree opts p f = some bc ∧
      bc.length = 1 + (segsOf (normalizePath opts.usePermalinks p)).length ∧
      (bc.getLast?).map Crumb.path = some (normalizePath opts.usePermalinks p) := by
  have hpne : p.toList ≠ [] := by
    rcases hmd with h | h <;>
      (unfold strEndsWith at h
       rw [List.isSuffixOf_iff_suffix] at h
       rcases h with ⟨u, hu⟩
       intro hnil
       rw [hnil] at hu
       exact absurd hu (by simp))
  have hnorm := normalizePath_single p hsl hbs hmd hnidx hne
  have hsegs : segsOf (normalizePath true p) = [stripExt p] := by
    rw [hnorm]
    exact segsOf_wrapped _ hne (fun hc => hsl (toList_stripExt_subset p hc))
  have hseg2 : (splitSlash p).filter (fun s => s.toList.length > 0) = [p] := by
    rw [splitSlash_single p hsl]
    have hlen : p.toList.length > 0 := List.length_pos.mpr hpne
    have hlen2 : 0 < p.length := hlen
    simp [List.filter, hlen2]
  cases hl : lookupKey navTree (lowerStr (stripExt p)) with
  | some nd =>
    have heq : breadcrumbFor navTree opts p f =
        some ([homeCrumb navTree opts] ++ [⟨nd.title, nd.path⟩]) := by
      unfold breadcrumbFor
      rw [hex]
      simp only [Bool.false_eq_true, if_false]
      rw [if_neg (fun hc => hpi hc.2), hseg2]
      simp [h1, hl]
    refine ⟨_, heq, ?_, ?_⟩
    · rw [h2, hsegs]
      rfl
    · have hp2 := hcons nd hl
      simp [hp2]
  | none =>
    have heq : breadcrumbFor navTree opts p f =
        some ([homeCrumb navTree opts] ++
          [⟨titleCase (stripExt p), fallbackPath1 opts p⟩]) := by
      unfold breadcrumbFor
      rw [hex]
      simp only [Bool.false_eq_true, if_false]
      rw [if_neg (fun hc => hpi hc.2), hseg2]
      simp [h1, hl]
    refine ⟨_, heq, ?_, ?_⟩
    · rw [h2, hsegs]
      rfl
    · have hfb : fallbackPath1 opts p = normalizePath opts.usePermalinks p := by
        unfold fallbackPath1
        rw [h2, hnorm, if_pos rfl, String.append_assoc]
      simp [hfb]


/-- C4 amended witness: `about.md` with default options against the empty
tree. -/
theorem c4_amended_breadcrumb_shape_witness :
    ((({} : Opts).navHomePage = true) ∧ (({} : Opts).usePermalinks = true) ∧
     (({} : FileRec).navExclude = false) ∧
     (¬ '/' ∈ "about.md".toList) ∧ (¬ '\\' ∈ "about.md".toList) ∧
     (strEndsWith ".md" "about.md" = true ∨ strEndsWith ".html" "about.md" = true) ∧
     (¬ ("about.md" = "index.html" ∨ "about.md" = "index.md")) ∧
     (strEndsWith "index.md" "about.md" = false ∧
       strEndsWith "index.html" "about.md" = false) ∧
     stripExt "about.md" ≠ "") ∧
    (∃ bc, breadcrumbFor [] {} "about.md" {} = some bc ∧
      bc.length = 1 + (segsOf (normalizePath ({} : Opts).usePermalinks "about.md")).length ∧
      (bc.getLast?).map Crumb.path =
        some (normalizePath ({} : Opts).usePermalinks "about.md")) :=
  ⟨⟨rfl, rfl, rfl, by decide, by decide, Or.inl (by decide), by decide,
     ⟨by decide, by decide⟩, by decide⟩,
    c4_amended_breadcrumb_shape [] {} "about.md" {} rfl rfl rfl (by decide)
      (by decide) (Or.inl (by decide)) (by decide) ⟨by decide, by decide⟩
      (by decide) (fun nd h => Option.noConfusion h)⟩

end Autonav

namespace Autonav

/-! ## Comparator algebra and sortedness for the sort claim -/

theorem intSign_swap (x y : Int) : intSign y x = - intSign x y := by
  unfold intSign
  split_ifs <;> omega

theorem jsSubSign_swap (a b : JVal) : jsSubSign b a = - jsSubSign a b := by
  cases a with
  | num x =>
    cases b with
    | num y => exact intSign_swap x y
    | str t =>
      show jsSubSign (.str t) (.num x) = - jsSubSign (.num x) (.str t)
      simp only [jsSubSign]
      cases jsStrToNum t with
      | none => rfl
      | some z => exact intSign_swap x z
    | inf =>
      show jsSubSign .inf (.num x) = - jsSubSign (.num x) .inf
      simp only [jsSubSign]
      try decide
  | str s =>
    cases b with
    | num y =>
      show jsSubSign (.num y) (.str s) = - jsSubSign (.str s) (.num y)
      simp only [jsSubSign]
      cases jsStrToNum s with
      | none => rfl
      | some z => exact intSign_swap z y
    | str t =>
      show jsSubSign (.str t) (.str s) = - jsSubSign (.str s) (.str t)
      simp only [jsSubSign]
      cases jsStrToNum s with
      | none =>
        cases jsStrToNum t with
        | none => rfl
        | some z => rfl
      | some w =>
        cases jsStrToNum t with
        | none => rfl
        | some z => exact intSign_swap w z
    | inf =>
      show jsSubSign .inf (.str s) = - jsSubSign (.str s) .inf
      simp only [jsSubSign]
      cases jsStrToNum s with
      | none => rfl
      | some z => rfl
  | inf =>
    cases b with
    | num y =>
      show jsSubSign (.num y) .inf = - jsSubSign .inf (.num y)
      simp only [jsSubSign]
      try decide
    | str t =>
      show jsSubSign (.str t) .inf = - jsSubSign .inf (.str t)
      simp only [jsSubSign]
      cases jsStrToNum t with
      | none => rfl
      | some z => rfl
    | inf => rfl

theorem localeCmp_swap (a b : String) : localeCmp b a = - localeCmp a b := by
  unfold localeCmp
  have h : compare b a = (compare a b).swap := (Batteries.OrientedCmp.symm a b).symm
  rw [h]
  cases compare a b <;> decide

/-- `sortReverse` inverts the comparator's result on every pair of values. -/
theorem jsCmp_rev (x y : JVal) : jsCmp true x y = - jsCmp false x y := by
  cases x with
  | str s =>
    cases y with
    | str t => exact localeCmp_swap s t
    | num n => exact jsSubSign_swap (.str s) (.num n)
    | inf => exact jsSubSign_swap (.str s) .inf
  | num n =>
    cases y with
    | str t => exact jsSubSign_swap (.num n) (.str t)
    | num m => exact jsSubSign_swap (.num n) (.num m)
    | inf => exact jsSubSign_swap (.num n) .inf
  | inf =>
    cases y with
    | str t => exact jsSubSign_swap .inf (.str t)
    | num m => exact jsSubSign_swap .inf (.num m)
    | inf => rfl

/-- Values that are numbers or the `Infinity` default (not strings). -/
def numericVal : JVal → Bool
  | .str _ => false
  | _ => true

theorem jsCmp_false_eq_sub {x : JVal} (y : JVal) (hx : numericVal x = true) :
    jsCmp false x y = jsSubSign x y := by
  cases x <;> cases y <;> first | rfl | (simp [numericVal] at hx)

theorem jsSubSign_le_total {x y : JVal} (hx : numericVal x = true)
    (hy : numericVal y = true) : jsSubSign x y ≤ 0 ∨ jsSubSign y x ≤ 0 := by
  cases x <;> cases y <;> (try simp [numericVal] at hx hy) <;>
    simp only [jsSubSign, intSign] <;>
    first
      | omega
      | (split_ifs <;> omega)

theorem jsSubSign_le_trans {x y z : JVal} (hx : numericVal x = true)
    (hy : numericVal y = true) (hz : numericVal z = true)
    (h1 : jsSubSign x y ≤ 0) (h2 : jsSubSign y z ≤ 0) : jsSubSign x z ≤ 0 := by
  cases x <;> cases y <;> cases z <;>
    (try simp [numericVal] at hx hy hz) <;>
    simp only [jsSubSign, intSign] at h1 h2 ⊢ <;>
    first
      | omega
      | (split_ifs at h1 h2 ⊢ <;> omega)

theorem pairwise_orderedInsert {α : Type} {r : α → α → Prop} [DecidableRel r]
    {P : α → Prop}
    (htot : ∀ a b, P a → P b → r a b ∨ r b a)
    (htr : ∀ a b c, P a → P b → P c → r a b → r b c → r a c)
    (a : α) (l : List α) (hPa : P a) (hPl : ∀ x ∈ l, P x)
    (hs : l.Pairwise r) : (List.orderedInsert r a l).Pairwise r := by
  induction l with
  | nil => simp [List.orderedInsert]
  | cons b tl ih =>
    rcases List.pairwise_cons.mp hs with ⟨hb, htl⟩
    rw [show List.orderedInsert r a (b :: tl) =
      if r a b then a :: b :: tl else b :: List.orderedInsert r a tl from rfl]
    by_cases hab : r a b
    · rw [if_pos hab]
      refine List.pairwise_cons.mpr ⟨?_, hs⟩
      intro x hx
      rcases List.mem_cons.mp hx with he | hm
      · exact he ▸ hab
      · exact htr a b x hPa (hPl b (List.mem_cons_self b tl))
          (hPl x (List.mem_cons_of_mem b hm)) hab (hb x hm)
    · rw [if_neg hab]
      have hba : r b a :=
        (htot a b hPa (hPl b (List.mem_cons_self b tl))).resolve_left hab
      refine List.pairwise_cons.mpr ⟨?_, ?_⟩
      · intro x hx
        have hx2 := (List.perm_orderedInsert r a tl).mem_iff.mp hx
        rcases List.mem_cons.mp hx2 with he | hm
        · exact he ▸ hba
        · exact hb x hm
      · exact ih (fun x hx => hPl x (List.mem_cons_of_mem b hx)) htl

theorem pairwise_insertionSort {α : Type} {r : α → α → Prop} [DecidableRel r]
    {P : α → Prop}
    (htot : ∀ a b, P a → P b → r a b ∨ r b a)
    (htr : ∀ a b c, P a → P b → P c → r a b → r b c → r a c) :
    ∀ (l : List α), (∀ x ∈ l, P x) → (List.insertionSort r l).Pairwise r := by
  intro l
  induction l with
  | nil => intro _; simp
  | cons a tl ih =>
    intro hPl
    rw [show List.insertionSort r (a :: tl) =
      List.orderedInsert r a (List.insertionSort r tl) from rfl]
    refine pairwise_orderedInsert htot htr a _ (hPl a (List.mem_cons_self a tl)) ?_ ?_
    · intro x hx
      exact hPl x (List.mem_cons_of_mem a ((List.perm_insertionSort r tl).mem_iff.mp hx))
    · exact ih (fun x hx => hPl x (List.mem_cons_of_mem a hx))

/-- The per-node transform of one `sortTree` level preserves every field the
comparator reads. -/
theorem sortTreeF_succ_shape (fuel : Nat) (opts : Opts) (tree : NavMap)
    (hne : tree.isEmpty = false) :
    ∃ F : NavNode → NavNode,
      sortTreeF (fuel + 1) opts tree =
        (List.insertionSort (fun a b => cmpTop opts a b ≤ 0) tree).map F ∧
      ∀ v, (F v).key = v.key ∧ (F v).title = v.title ∧ (F v).path = v.path ∧
        (F v).index = v.index := by
  refine ⟨fun v =>
      if v.children.isEmpty then v
      else
        NavNode.mk v.key v.title v.path v.index
          ((List.insertionSort (fun a b => cmpInline opts a b ≤ 0) v.children).map
            (fun c =>
              if c.children.isEmpty then c
              else NavNode.mk c.key c.title c.path c.index
                (sortTreeF fuel opts c.children))), ?_, ?_⟩
  · rw [sortTreeF, hne]
    simp only [Bool.false_eq_true, if_false]
  · intro v
    by_cases hc : v.children.isEmpty <;>
      simp [hc, NavNode.key, NavNode.title, NavNode.path, NavNode.index]

end Autonav

namespace Autonav

/-- `cmpTop` under a property-name `sortBy`. -/
theorem cmpTop_field (opts : Opts) {nm : String}
    (h : opts.sortBy = some (.field nm)) (a b : NavNode) :
    cmpTop opts a b =
      jsCmp opts.sortReverse (orInf (nodeGet a nm)) (orInf (nodeGet b nm)) := by
  unfold cmpTop
  rw [h]

/-- C6 (amended).  At the comparator level the claim's components hold:
with a property-name `sortBy`, `sortReverse` inverts the final comparison
result of every pair (not the key extraction), and string values compare
lexically.  For a sibling list whose configured sort values are all numeric
or missing (`Infinity`-defaulted), the top level of `sortTree` is a
permutation of the input sorted ascending by the comparator, so unindexed
(`Infinity`) nodes come last.  The original claim's final consequence —
that the sorted order under `sortReverse` is the reverse of the order
without it — is refuted by `c6_counterexample`: the sort is stable, so tied
nodes keep their relative order under both settings. -/
theorem c6_amended_sort_semantics (opts : Opts) (tree : NavMap) (nm : String)
    (hsb : opts.sortBy = some (.field nm))
    (hrev : opts.sortReverse = false)
    (hnum : ∀ n ∈ tree, numericVal (orInf (nodeGet n nm)) = true) :
    (∀ o2 : Opts, o2.sortBy = some (.field nm) → o2.sortReverse = true →
      ∀ a b : NavNode, cmpTop o2 a b = - cmpTop opts a b) ∧
    (∀ sa sb : String, jsCmp opts.sortReverse (.str sa) (.str sb) = localeCmp sa sb) ∧
    ((sortTree opts tree).map NavNode.key).Perm (tree.map NavNode.key) ∧
    List.Pairwise (fun x y => cmpTop opts x y ≤ 0) (sortTree opts tree) := by
  have htot : ∀ a b : NavNode,
      numericVal (orInf (nodeGet a nm)) = true →
      numericVal (orInf (nodeGet b nm)) = true →
      (cmpTop opts a b ≤ 0) ∨ (cmpTop opts b a ≤ 0) := by
    intro a b hPa hPb
    rw [cmpTop_field opts hsb a b, cmpTop_field opts hsb b a, hrev,
      jsCmp_false_eq_sub _ hPa, jsCmp_false_eq_sub _ hPb]
    exact jsSubSign_le_total hPa hPb
  have htr : ∀ a b c : NavNode,
      numericVal (orInf (nodeGet a nm)) = true →
      numericVal (orInf (nodeGet b nm)) = true →
      numericVal (orInf (nodeGet c nm)) = true →
      cmpTop opts a b ≤ 0 → cmpTop opts b c ≤ 0 → cmpTop opts a c ≤ 0 := by
    intro a b c hPa hPb hPc h1 h2
    rw [cmpTop_field opts hsb a b, hrev, jsCmp_false_eq_sub _ hPa] at h1
    rw [cmpTop_field opts hsb b c, hrev, jsCmp_false_eq_sub _ hPb] at h2
    rw [cmpTop_field opts hsb a c, hrev, jsCmp_false_eq_sub _ hPa]
    exact jsSubSign_le_trans hPa hPb hPc h1 h2
  have hmain : (((sortTree opts tree).map NavNode.key).Perm (tree.map NavNode.key)) ∧
      List.Pairwise (fun x y => cmpTop opts x y ≤ 0) (sortTree opts tree) := by
    cases tree with
    | nil =>
      have h0 : sortTree opts ([] : NavMap) = [] := rfl
      rw [h0]
      exact ⟨List.Perm.refl _, List.Pairwise.nil⟩
    | cons hd tl =>
      obtain ⟨fl, hfl⟩ : ∃ fl, mapSize (hd :: tl) = fl + 1 := by
        rw [mapSize_cons]
        exact ⟨nodeSize hd + mapSize tl, by omega⟩
      have hst : sortTree opts (hd :: tl) = sortTreeF (fl + 1) opts (hd :: tl) := by
        unfold sortTree
        rw [hfl]
      obtain ⟨F, hFeq, hFp⟩ := sortTreeF_succ_shape fl opts (hd :: tl) (by simp)
      rw [hst, hFeq]
      have hkeys : ((List.insertionSort (fun a b => cmpTop opts a b ≤ 0)
            (hd :: tl)).map F).map NavNode.key =
          (List.insertionSort (fun a b => cmpTop opts a b ≤ 0)
            (hd :: tl)).map NavNode.key := by
        rw [List.map_map]
        exact List.map_congr_left (fun v _ => (hFp v).1)
      constructor
      · rw [hkeys]
        exact (List.perm_insertionSort _ _).map NavNode.key
      · rw [List.pairwise_map]
        have hget : ∀ (v : NavNode), nodeGet (F v) nm = nodeGet v nm := by
          intro v
          obtain ⟨hk, ht, hp, hi⟩ := hFp v
          unfold nodeGet
          rw [ht, hp, hi]
        have hcmp : ∀ a b : NavNode, cmpTop opts (F a) (F b) = cmpTop opts a b := by
          intro a b
          rw [cmpTop_field opts hsb, cmpTop_field opts hsb, hget, hget]
        have hpp := pairwise_insertionSort
          (P := fun n => numericVal (orInf (nodeGet n nm)) = true)
          htot htr (hd :: tl) hnum
        exact hpp.imp (fun hab => by rw [hcmp]; exact hab)
  refine ⟨?_, ?_, hmain.1, hmain.2⟩
  · intro o2 h1 h2 a b
    rw [cmpTop_field o2 h1 a b, cmpTop_field opts hsb a b, h2, hrev]
    exact jsCmp_rev _ _
  · intro sa sb
    rw [hrev]
    rfl


/-- C6 amended witness: two siblings with numeric `index` values 5 and 1,
sorted by the `index` property. -/
theorem c6_amended_sort_semantics_witness :
    ((({ sortBy := some (.field "index") } : Opts).sortBy = some (.field "index")) ∧
     (({ sortBy := some (.field "index") } : Opts).sortReverse = false) ∧
     (∀ n ∈ [NavNode.mk "a" "A" "/a/" (some (.num 5)) [],
             NavNode.mk "b" "B" "/b/" (some (.num 1)) []],
        numericVal (orInf (nodeGet n "index")) = true)) ∧
    ((∀ o2 : Opts, o2.sortBy = some (.field "index") → o2.sortReverse = true →
      ∀ a b : NavNode,
        cmpTop o2 a b = - cmpTop { sortBy := some (.field "index") } a b) ∧
    (∀ sa sb : String,
      jsCmp ({ sortBy := some (.field "index") } : Opts).sortReverse
        (.str sa) (.str sb) = localeCmp sa sb) ∧
    ((sortTree { sortBy := some (.field "index") }
        [NavNode.mk "a" "A" "/a/" (some (.num 5)) [],
         NavNode.mk "b" "B" "/b/" (some (.num 1)) []]).map NavNode.key).Perm
      (([NavNode.mk "a" "A" "/a/" (some (.num 5)) [],
         NavNode.mk "b" "B" "/b/" (some (.num 1)) []] : NavMap).map NavNode.key) ∧
    List.Pairwise
      (fun x y => cmpTop { sortBy := some (.field "index") } x y ≤ 0)
      (sortTree { sortBy := some (.field "index") }
        [NavNode.mk "a" "A" "/a/" (some (.num 5)) [],
         NavNode.mk "b" "B" "/b/" (some (.num 1)) []])) :=
  ⟨⟨rfl, rfl, by decide⟩,
    c6_amended_sort_semantics { sortBy := some (.field "index") }
      [NavNode.mk "a" "A" "/a/" (some (.num 5)) [],
       NavNode.mk "b" "B" "/b/" (some (.num 1)) []] "index" rfl rfl (by decide)⟩

end Autonav

namespace Autonav

/-! ## Recursive node invariants -/

mutual
/-- Every node of a subtree satisfies `φ (its path) (its children's paths)`,
recursively (mutual with the list form). -/
def nodeOkB (φ : String → List String → Bool) : NavNode → Bool
  | .mk _ _ p _ cs => φ p (cs.map NavNode.path) && kidsOkB φ cs
def kidsOkB (φ : String → List String → Bool) : List NavNode → Bool
  | [] => true
  | c :: rest => nodeOkB φ c && kidsOkB φ rest
end

theorem kidsOkB_iff {φ : String → List String → Bool} {m : NavMap} :
    kidsOkB φ m = true ↔ ∀ c ∈ m, nodeOkB φ c = true := by
  induction m with
  | nil => simp [kidsOkB]
  | cons c rest ih =>
    rw [show kidsOkB φ (c :: rest) = (nodeOkB φ c && kidsOkB φ rest) from rfl,
      Bool.and_eq_true, ih]
    constructor
    · rintro ⟨h1, h2⟩ x hx
      rcases List.mem_cons.mp hx with he | hm
      · exact he ▸ h1
      · exact h2 x hm
    · intro h
      exact ⟨h c (List.mem_cons_self c rest),
        fun x hx => h x (List.mem_cons_of_mem c hx)⟩

theorem nodeOkB_mk {φ : String → List String → Bool} {k t p : String}
    {i : Option SortVal} {cs : List NavNode} :
    nodeOkB φ (NavNode.mk k t p i cs) =
      (φ p (cs.map NavNode.path) && kidsOkB φ cs) := rfl

theorem nodeOkB_keyed {φ : String → List String → Bool} (k : String) (n : NavNode) :
    nodeOkB φ (NavNode.keyed k n) = nodeOkB φ n := by
  cases n
  rfl

theorem kidsOkB_filter {φ : String → List String → Bool} (f : NavNode → Bool)
    {m : NavMap} (h : kidsOkB φ m = true) : kidsOkB φ (m.filter f) = true := by
  rw [kidsOkB_iff] at h ⊢
  intro c hc
  exact h c (List.mem_of_mem_filter hc)

theorem kidsOkB_setKey {φ : String → List String → Bool} {m : NavMap}
    (k : String) {v : NavNode} (hm : kidsOkB φ m = true)
    (hv : nodeOkB φ v = true) : kidsOkB φ (setKey m k v) = true := by
  induction m with
  | nil =>
    show kidsOkB φ [NavNode.keyed k v] = true
    rw [show kidsOkB φ [NavNode.keyed k v] =
      (nodeOkB φ (NavNode.keyed k v) && kidsOkB φ []) from rfl]
    simp [nodeOkB_keyed, hv, kidsOkB]
  | cons n rest ih =>
    rw [show kidsOkB φ (n :: rest) = (nodeOkB φ n && kidsOkB φ rest) from rfl,
      Bool.and_eq_true] at hm
    rw [setKey_cons]
    by_cases h : n.key = k
    · rw [if_pos h]
      rw [show kidsOkB φ (NavNode.keyed k v :: rest) =
        (nodeOkB φ (NavNode.keyed k v) && kidsOkB φ rest) from rfl]
      simp [nodeOkB_keyed, hv, hm.2]
    · rw [if_neg h]
      rw [show kidsOkB φ (n :: setKey rest k v) =
        (nodeOkB φ n && kidsOkB φ (setKey rest k v)) from rfl]
      simp [hm.1, ih hm.2]

theorem cleanEmptyKids_eq_map (m : List NavNode) :
    cleanEmptyKids m = m.map cleanEmptyNode := by
  induction m with
  | nil => rfl
  | cons c rest ih =>
    rw [show cleanEmptyKids (c :: rest) = cleanEmptyNode c :: cleanEmptyKids rest from rfl,
      ih]
    rfl

theorem cleanEmptyNode_path (n : NavNode) : (cleanEmptyNode n).path = n.path := by
  cases n
  rfl

/-- `cleanEmptyChildren` changes nothing any recursive path predicate sees. -/
theorem kidsOkB_cleanEmpty (φ : String → List String → Bool) (m : NavMap) :
    kidsOkB φ (cleanEmptyKids m) = kidsOkB φ m := by
  have key : ∀ (n : Nat) (mm : NavMap), mapSize mm = n →
      kidsOkB φ (cleanEmptyKids mm) = kidsOkB φ mm := by
    intro n
    induction n using Nat.strong_induction_on with
    | _ n ih =>
      intro mm hn
      cases mm with
      | nil => rfl
      | cons c rest =>
        rw [show cleanEmptyKids (c :: rest) = cleanEmptyNode c :: cleanEmptyKids rest from rfl]
        rw [show kidsOkB φ (cleanEmptyNode c :: cleanEmptyKids rest) =
          (nodeOkB φ (cleanEmptyNode c) && kidsOkB φ (cleanEmptyKids rest)) from rfl]
        rw [show kidsOkB φ (c :: rest) = (nodeOkB φ c && kidsOkB φ rest) from rfl]
        rw [mapSize_cons] at hn
        have hpos := nodeSize_pos c
        have hrest : kidsOkB φ (cleanEmptyKids rest) = kidsOkB φ rest :=
          ih (mapSize rest) (by omega) rest rfl
        have hnode : nodeOkB φ (cleanEmptyNode c) = nodeOkB φ c := by
          cases c with
          | mk k t p i cs =>
            rw [show cleanEmptyNode (NavNode.mk k t p i cs) =
              NavNode.mk k t p i (cleanEmptyKids cs) from rfl]
            rw [nodeOkB_mk, nodeOkB_mk]
            have hpaths : (cleanEmptyKids cs).map NavNode.path = cs.map NavNode.path := by
              rw [cleanEmptyKids_eq_map, List.map_map]
              exact List.map_congr_left (fun x _ => cleanEmptyNode_path x)
            have hlt : mapSize cs < nodeSize (NavNode.mk k t p i cs) :=
              mapSize_children_lt (NavNode.mk k t p i cs)
            have hcs : kidsOkB φ (cleanEmptyKids cs) = kidsOkB φ cs := by
              refine ih (mapSize cs) ?_ cs rfl
              have hns : nodeSize (NavNode.mk k t p i cs) ≤ n - 1 - mapSize rest := by omega
              omega
            rw [hpaths, hcs]
        rw [hrest, hnode]
  exact key (mapSize m) m rfl

/-- The top level of one `sortTree` pass permutes the nodes' paths. -/
theorem sortTreeF_paths_perm (fuel : Nat) (opts : Opts) (m : NavMap) :
    ((sortTreeF fuel opts m).map NavNode.path).Perm (m.map NavNode.path) := by
  cases fuel with
  | zero => exact List.Perm.refl _
  | succ fl =>
    by_cases hm : m.isEmpty
    · have hnil : m = [] := by simpa using hm
      subst hnil
      simp [sortTreeF]
    · have hm' : m.isEmpty = false := by simpa using hm
      obtain ⟨F, hFeq, hFp⟩ := sortTreeF_succ_shape fl opts m hm'
      rw [hFeq, List.map_map]
      have h1 : (List.insertionSort (fun a b => cmpTop opts a b ≤ 0) m).map
          (NavNode.path ∘ F) =
          (List.insertionSort (fun a b => cmpTop opts a b ≤ 0) m).map NavNode.path :=
        List.map_congr_left (fun v _ => (hFp v).2.2.1)
      rw [h1]
      exact (List.perm_insertionSort _ _).map NavNode.path

/-- `sortTree` preserves any permutation-stable recursive path invariant. -/
theorem kidsOkB_sortTreeF (φ : String → List String → Bool)
    (hφ : ∀ (p : String) (l₁ l₂ : List String), l₁.Perm l₂ →
      φ p l₁ = true → φ p l₂ = true) :
    ∀ (fuel : Nat) (opts : Opts) (m : NavMap),
      kidsOkB φ m = true → kidsOkB φ (sortTreeF fuel opts m) = true := by
  intro fuel
  induction fuel with
  | zero => exact fun opts m h => h
  | succ fl ih =>
    intro opts m h
    by_cases hm : m.isEmpty
    · have hnil : m = [] := by simpa using hm
      subst hnil
      simpa [sortTreeF] using h
    · have hm' : m.isEmpty = false := by simpa using hm
      rw [sortTreeF, hm']
      simp only [Bool.false_eq_true, if_false]
      rw [kidsOkB_iff]
      intro c' hc'
      rcases List.mem_map.mp hc' with ⟨v, hv, hfv⟩
      have hvm : v ∈ m := (List.perm_insertionSort _ m).mem_iff.mp hv
      have hvok : nodeOkB φ v = true := kidsOkB_iff.mp h v hvm
      by_cases hve : v.children.isEmpty
      · rw [← hfv]
        simpa [hve] using hvok
      · rw [← hfv]
        simp only [hve, Bool.false_eq_true, if_false]
        cases v with
        | mk k t p i cs =>
          simp only [NavNode.children] at hve
          rw [nodeOkB_mk, Bool.and_eq_true] at hvok
          rcases hvok with ⟨hφv, hcsok⟩
          rw [show (NavNode.mk k t p i cs).children = cs from rfl,
            show (NavNode.mk k t p i cs).key = k from rfl,
            show (NavNode.mk k t p i cs).title = t from rfl,
            show (NavNode.mk k t p i cs).path = p from rfl,
            show (NavNode.mk k t p i cs).index = i from rfl]
          rw [nodeOkB_mk, Bool.and_eq_true]
          constructor
          · apply hφ p (cs.map NavNode.path)
            · -- children paths of the transformed node permute the originals
              have h2 : (List.map (fun c =>
                    if c.children.isEmpty then c
                    else NavNode.mk c.key c.title c.path c.index
                      (sortTreeF fl opts c.children))
                    (List.insertionSort (fun a b => cmpInline opts a b ≤ 0) cs)).map
                      NavNode.path =
                  (List.insertionSort (fun a b => cmpInline opts a b ≤ 0) cs).map
                    NavNode.path := by
                rw [List.map_map]
                apply List.map_congr_left
                intro x _
                by_cases hx : x.children.isEmpty <;>
                  simp [hx, Function.comp, NavNode.path]
              rw [h2]
              exact ((List.perm_insertionSort _ cs).map NavNode.path).symm
            · exact hφv
          · rw [kidsOkB_iff]
            intro g hg
            rcases List.mem_map.mp hg with ⟨x, hx, hgx⟩
            have hxcs : x ∈ cs := (List.perm_insertionSort _ cs).mem_iff.mp hx
            have hxok : nodeOkB φ x = true := kidsOkB_iff.mp hcsok x hxcs
            by_cases hxe : x.children.isEmpty
            · rw [← hgx]
              simpa [hxe] using hxok
            · rw [← hgx]
              simp only [hxe, Bool.false_eq_true, if_false]
              cases x with
              | mk k2 t2 p2 i2 cs2 =>
                rw [nodeOkB_mk, Bool.and_eq_true] at hxok
                rcases hxok with ⟨hφx, hcs2ok⟩
                rw [show (NavNode.mk k2 t2 p2 i2 cs2).children = cs2 from rfl,
                  show (NavNode.mk k2 t2 p2 i2 cs2).key = k2 from rfl,
                  show (NavNode.mk k2 t2 p2 i2 cs2).title = t2 from rfl,
                  show (NavNode.mk k2 t2 p2 i2 cs2).path = p2 from rfl,
                  show (NavNode.mk k2 t2 p2 i2 cs2).index = i2 from rfl]
                rw [nodeOkB_mk, Bool.and_eq_true]
                constructor
                · apply hφ p2 (cs2.map NavNode.path)
                  · exact (sortTreeF_paths_perm fl opts cs2).symm
                  · exact hφx
                · exact ih opts cs2 hcs2ok

end Autonav

namespace Autonav

/-! ## The self-reference invariant established by removeDuplicates -/

/-- Local predicate: no child path equals the node's own path. -/
def selfFreeLocal : String → List String → Bool :=
  fun p ch => ch.all (fun q => q ≠ p)

theorem lookupKey_eq_none {m : NavMap} {k : String}
    (h : ∀ c ∈ m, c.key ≠ k) : lookupKey m k = none := by
  unfold lookupKey
  rw [List.find?_eq_none]
  intro x hx
  simpa using h x hx

theorem eraseKey_key_ne {m : NavMap} {k : String} :
    ∀ g ∈ eraseKey m k, g.key ≠ k := by
  intro g hg
  have := List.of_mem_filter hg
  simpa using this

/-- After the same-key grandchild merge, a node has no child under its own
key. -/
theorem rdStep_children_key (c : NavNode) :
    ∀ g ∈ (rdStep c).children, g.key ≠ (rdStep c).key := by
  intro g hg
  rw [rdStep_key]
  unfold rdStep at hg
  cases hl : lookupKey c.children c.key with
  | some g0 =>
    rw [hl] at hg
    simp only [NavNode.children] at hg
    exact eraseKey_key_ne g hg
  | none =>
    rw [hl] at hg
    unfold lookupKey at hl
    rw [List.find?_eq_none] at hl
    simpa using hl g hg

/-- Keys only disappear through `removeDuplicates`. -/
theorem rdChildrenF_key_mem : ∀ (fuel : Nat) (dups : String → Bool)
    (pp : Option String) (m : NavMap),
    ∀ n ∈ rdChildrenF fuel dups pp m, ∃ c ∈ m, n.key = c.key := by
  intro fuel
  cases fuel with
  | zero => exact fun dups pp m n hn => ⟨n, hn, rfl⟩
  | succ fl =>
    intro dups pp m n hn
    rw [show rdChildrenF (fl + 1) dups pp m =
      (rdPhaseA m).filterMap (fun c =>
        if some c.path = pp then none
        else if dups c.path ∧ hasDoubledSeg c.path then none
        else
          let c1 := NavNode.mk c.key c.title c.path c.index
            (rdChildrenF fl dups (some c.path) c.children)
          match lookupKey c1.children c1.key with
          | some g =>
            if rawSegCount c1.path < rawSegCount g.path then
              some (NavNode.mk c1.key g.title g.path c1.index (eraseKey c1.children c1.key))
            else
              some (NavNode.mk c1.key c1.title c1.path c1.index (eraseKey c1.children c1.key))
          | none => some c1) from rfl] at hn
    rcases List.mem_filterMap.mp hn with ⟨c, hc, hfc⟩
    rcases List.mem_map.mp hc with ⟨c0, hc0, hcc0⟩
    refine ⟨c0, hc0, ?_⟩
    have hkey : n.key = c.key := by
      by_cases h1 : some c.path = pp
      · rw [if_pos h1] at hfc
        cases hfc
      · rw [if_neg h1] at hfc
        by_cases h2 : dups c.path ∧ hasDoubledSeg c.path
        · rw [if_pos h2] at hfc
          cases hfc
        · rw [if_neg h2] at hfc
          simp only at hfc
          have hfc2 : (match lookupKey (rdChildrenF fl dups (some c.path) c.children)
                c.key with
              | some g =>
                if rawSegCount c.path < rawSegCount g.path then
                  some (NavNode.mk c.key g.title g.path c.index
                    (eraseKey (rdChildrenF fl dups (some c.path) c.children) c.key))
                else
                  some (NavNode.mk c.key c.title c.path c.index
                    (eraseKey (rdChildrenF fl dups (some c.path) c.children) c.key))
              | none => some (NavNode.mk c.key c.title c.path c.index
                  (rdChildrenF fl dups (some c.path) c.children))) = some n := hfc
          split at hfc2 <;>
            first
              | (cases hfc2; rfl)
              | (split at hfc2 <;> (cases hfc2; rfl))
    rw [hkey, ← hcc0, rdStep_key]

/-- The per-node output of `removeDuplicates`: kept children avoid the
parent's path, and the subtree below them is free of self-references. -/
theorem rdChildrenF_noSelfRef : ∀ (fuel : Nat) (dups : String → Bool)
    (pp : Option String) (m : NavMap), mapSize m ≤ fuel →
    ∀ n ∈ rdChildrenF fuel dups pp m,
      (∀ q, pp = some q → n.path ≠ q) ∧ nodeOkB selfFreeLocal n = true := by
  intro fuel
  induction fuel with
  | zero =>
    intro dups pp m hsz n hn
    have : m = [] := mapSize_zero_iff.mp (by omega)
    subst this
    cases hn
  | succ fl ih =>
    intro dups pp m hsz n hn
    rw [show rdChildrenF (fl + 1) dups pp m =
      (rdPhaseA m).filterMap (fun c =>
        if some c.path = pp then none
        else if dups c.path ∧ hasDoubledSeg c.path then none
        else
          let c1 := NavNode.mk c.key c.title c.path c.index
            (rdChildrenF fl dups (some c.path) c.children)
          match lookupKey c1.children c1.key with
          | some g =>
            if rawSegCount c1.path < rawSegCount g.path then
              some (NavNode.mk c1.key g.title g.path c1.index (eraseKey c1.children c1.key))
            else
              some (NavNode.mk c1.key c1.title c1.path c1.index (eraseKey c1.children c1.key))
          | none => some c1) from rfl] at hn
    rcases List.mem_filterMap.mp hn with ⟨c, hc, hfc⟩
    have hsize : nodeSize c < mapSize m := nodeSize_mem_rdPhaseA hc
    have hchildsz : mapSize c.children ≤ fl := by
      have := mapSize_children_lt c
      omega
    -- the recursion below `c`
    have hrec := fun g hg => ih dups (some c.path) c.children hchildsz g hg
    -- the same-key lookup on the recursion result is vacuous
    have hnokey : lookupKey (rdChildrenF fl dups (some c.path) c.children) c.key = none := by
      apply lookupKey_eq_none
      intro g hg
      rcases rdChildrenF_key_mem fl dups (some c.path) c.children g hg with ⟨c2, hc2, hgc2⟩
      rcases List.mem_map.mp hc with ⟨c0, hc0, hcc0⟩
      rw [hgc2]
      intro hck
      have hne := rdStep_children_key c0
      rw [hcc0] at hne
      exact hne c2 hc2 hck
    by_cases h1 : some c.path = pp
    · rw [if_pos h1] at hfc
      cases hfc
    · rw [if_neg h1] at hfc
      by_cases h2 : dups c.path ∧ hasDoubledSeg c.path
      · rw [if_pos h2] at hfc
        cases hfc
      · rw [if_neg h2] at hfc
        simp only at hfc
        have hfc2 : (match lookupKey (rdChildrenF fl dups (some c.path) c.children)
              c.key with
            | some g =>
              if rawSegCount c.path < rawSegCount g.path then
                some (NavNode.mk c.key g.title g.path c.index
                  (eraseKey (rdChildrenF fl dups (some c.path) c.children) c.key))
              else
                some (NavNode.mk c.key c.title c.path c.index
                  (eraseKey (rdChildrenF fl dups (some c.path) c.children) c.key))
            | none => some (NavNode.mk c.key c.title c.path c.index
                (rdChildrenF fl dups (some c.path) c.children))) = some n := hfc
        rw [hnokey] at hfc2
        have hfc3 : some (NavNode.mk c.key c.title c.path c.index
            (rdChildrenF fl dups (some c.path) c.children)) = some n := hfc2
        cases hfc3
        constructor
        · intro q hq hpq
          apply h1
          rw [hq]
          have hpq2 : c.path = q := hpq
          rw [hpq2]
        · rw [nodeOkB_mk, Bool.and_eq_true]
          constructor
          · rw [show selfFreeLocal c.path
              ((rdChildrenF fl dups (some c.path) c.children).map NavNode.path) =
              ((rdChildrenF fl dups (some c.path) c.children).map NavNode.path).all
                (fun q => q ≠ c.path) from rfl]
            rw [List.all_eq_true]
            intro q hq
            rcases List.mem_map.mp hq with ⟨g, hg, hgq⟩
            have := (hrec g hg).1 c.path rfl
            simpa [← hgq] using this
          · rw [kidsOkB_iff]
            intro g hg
            exact (hrec g hg).2

end Autonav

namespace Autonav

/-- C5.  For every file collection and configuration, no node of the
finished navigation tree has a child whose path equals the node's own path:
`removeDuplicates` deletes any child whose path matches the path of the
node under which it is filed (and its first pass leaves no same-key child
that the later merge step could resurrect), and the empty-children pass and
`sortTree` preserve the invariant. -/
theorem c5_no_self_referential_child (files : List (String × FileRec))
    (opts : Opts) : kidsOkB selfFreeLocal (buildNavTree files opts) = true := by
  unfold buildNavTree cleanupTree
  have hperm : ∀ (p : String) (l₁ l₂ : List String), l₁.Perm l₂ →
      selfFreeLocal p l₁ = true → selfFreeLocal p l₂ = true := by
    intro p l1 l2 hp h
    simp only [selfFreeLocal, List.all_eq_true, decide_eq_true_eq] at h ⊢
    intro q hq
    exact h q (hp.mem_iff.mpr hq)
  refine kidsOkB_sortTreeF selfFreeLocal hperm _ opts _ ?_
  rw [kidsOkB_cleanEmpty]
  rw [show rdChildren (fun p => isDupPath
      ((orderedPaths opts files).foldl (treeStep opts files) []) p) none
      (fixMalformed ((orderedPaths opts files).foldl (treeStep opts files) [])) =
    rdChildrenF (mapSize (fixMalformed
        ((orderedPaths opts files).foldl (treeStep opts files) [])))
      (fun p => isDupPath ((orderedPaths opts files).foldl (treeStep opts files) []) p)
      none
      (fixMalformed ((orderedPaths opts files).foldl (treeStep opts files) []))
    from rfl]
  rw [kidsOkB_iff]
  intro n hn
  exact (rdChildrenF_noSelfRef _ _ none _ (Nat.le_refl _) n hn).2

end Autonav

namespace Autonav

/-! ## Leading-slash facts about the path builders -/

/-- Local predicate: the path starts with `/`. -/
def pathStartsSlash : String → List String → Bool :=
  fun p _ => strStartsWith "/" p

theorem nodeOkB_dest {φ : String → List String → Bool} {n : NavNode}
    (h : nodeOkB φ n = true) :
    φ n.path (n.children.map NavNode.path) = true ∧ kidsOkB φ n.children = true := by
  cases n with
  | mk k t p i cs =>
    rw [nodeOkB_mk, Bool.and_eq_true] at h
    exact h

theorem append_ne_empty_left {a : String} (b : String) (h : a ≠ "") :
    a ++ b ≠ "" := by
  intro hc
  apply h
  have h1 := congrArg String.toList hc
  rw [strToList_append] at h1
  have h2 := (List.append_eq_nil.mp h1).1
  have h3 := congrArg (fun l => (⟨l⟩ : String)) h2
  simpa [strMk_toList] using h3

theorem strStartsWith_slash_append (x : String) :
    strStartsWith "/" ("/" ++ x) = true := by
  rw [strStartsWith_slash_iff, strToList_append]
  rfl

theorem startsWith_append_left {a : String} (b : String)
    (h : strStartsWith "/" a = true) : strStartsWith "/" (a ++ b) = true := by
  rw [strStartsWith_slash_iff] at h ⊢
  rw [strToList_append]
  rw [List.head?_append_of_ne_nil]
  · exact h
  · intro hc
    rw [hc] at h
    cases h

theorem foldStr_extend {β : Type} (g : String → β → String)
    (hg : ∀ acc i, ∃ x, g acc i = acc ++ x) :
    ∀ (l : List β) (acc : String), ∃ r, l.foldl g acc = acc ++ r := by
  intro l
  induction l with
  | nil => exact fun acc => ⟨"", (String.append_empty acc).symm⟩
  | cons i rest ih =>
    intro acc
    rcases hg acc i with ⟨x, hx⟩
    rcases ih (g acc i) with ⟨r, hr⟩
    exact ⟨x ++ r, by rw [List.foldl_cons, hr, hx, String.append_assoc]⟩

/-- The body of the `currentPath` accumulation loop. -/
def cpStep (u : Bool) (segs : List String) (depth : Nat)
    (acc : String) (i : Nat) : String :=
  if stripIndexName (segs.getD i "") = "" then acc
  else acc ++ stripIndexName (segs.getD i "") ++ (if i < depth ∨ ¬u then "" else "/")

/-- The body of the `parentPath` accumulation loop. -/
def ppStep (u : Bool) (segs : List String) (acc : String) (i : Nat) : String :=
  if stripIndexName (segs.getD i "") = "" then acc
  else acc ++ stripIndexName (segs.getD i "") ++ (if u then "/" else "")

theorem currentPathAt_eq (u : Bool) (segs : List String) (depth : Nat) :
    currentPathAt u segs depth =
      (List.range (depth + 1)).foldl (cpStep u segs depth) "/" := rfl

theorem parentPathAt_eq (u : Bool) (segs : List String) (depth : Nat) :
    parentPathAt u segs depth =
      (List.range depth).foldl (ppStep u segs) "/" := rfl

theorem cpStep_extend (u : Bool) (segs : List String) (depth : Nat) :
    ∀ acc i, ∃ x, cpStep u segs depth acc i = acc ++ x := by
  intro acc i
  unfold cpStep
  by_cases hp : stripIndexName (segs.getD i "") = ""
  · rw [if_pos hp]
    exact ⟨"", (String.append_empty acc).symm⟩
  · rw [if_neg hp, String.append_assoc]
    exact ⟨_, rfl⟩

theorem ppStep_extend (u : Bool) (segs : List String) :
    ∀ acc i, ∃ x, ppStep u segs acc i = acc ++ x := by
  intro acc i
  unfold ppStep
  by_cases hp : stripIndexName (segs.getD i "") = ""
  · rw [if_pos hp]
    exact ⟨"", (String.append_empty acc).symm⟩
  · rw [if_neg hp, String.append_assoc]
    exact ⟨_, rfl⟩

theorem currentPathAt_startsWith (u : Bool) (segs : List String) (depth : Nat) :
    strStartsWith "/" (currentPathAt u segs depth) = true := by
  rw [currentPathAt_eq]
  rcases foldStr_extend _ (cpStep_extend u segs depth) (List.range (depth + 1)) "/" with
    ⟨r, hr⟩
  rw [hr]
  exact strStartsWith_slash_append r

theorem currentPathAt_long (u : Bool) (segs : List String) (depth : Nat)
    (h0 : stripIndexName (segs.getD 0 "") ≠ "") :
    ∃ r, currentPathAt u segs depth = "/" ++ r ∧ r ≠ "" := by
  rw [currentPathAt_eq, List.range_succ_eq_map, List.foldl_cons]
  have hred : cpStep u segs depth "/" 0 =
      "/" ++ (stripIndexName (segs.getD 0 "") ++
        (if 0 < depth ∨ ¬u then "" else "/")) := by
    unfold cpStep
    rw [if_neg h0, String.append_assoc]
  rw [hred]
  rcases foldStr_extend _ (cpStep_extend u segs depth)
    ((List.range depth).map Nat.succ)
    ("/" ++ (stripIndexName (segs.getD 0 "") ++
      (if 0 < depth ∨ ¬u then "" else "/"))) with ⟨r2, hr2⟩
  rw [hr2, String.append_assoc]
  exact ⟨_, rfl, append_ne_empty_left _ (append_ne_empty_left _ h0)⟩

theorem parentPathAt_startsWith (u : Bool) (segs : List String) (depth : Nat) :
    strStartsWith "/" (parentPathAt u segs depth) = true := by
  rw [parentPathAt_eq]
  rcases foldStr_extend _ (ppStep_extend u segs) (List.range depth) "/" with ⟨r, hr⟩
  rw [hr]
  exact strStartsWith_slash_append r

theorem dropTrailSlash_startsWith {s : String} {r : String}
    (hs : s = "/" ++ r) (hr : r ≠ "") :
    strStartsWith "/" (dropTrailSlash s) = true := by
  unfold dropTrailSlash
  by_cases he : strEndsWith "/" s = true
  · rw [if_pos he]
    rw [strStartsWith_slash_iff]
    unfold strDropLast
    subst hs
    have hrl : r.toList ≠ [] := toList_ne_nil hr
    cases hx : r.toList with
    | nil => exact absurd hx hrl
    | cons c cs =>
      have ht : ("/" ++ r).toList = '/' :: (c :: cs) := by
        rw [strToList_append, hx]
        rfl
      rw [ht]
      show (List.take ((('/' :: (c :: cs)) : List Char).length - 1)
        ('/' :: (c :: cs))).head? = some '/'
      simp [List.length_cons]
  · rw [if_neg he]
    rw [hs]
    exact strStartsWith_slash_append r

/-- The malformed-path rewrite keeps a leading slash. -/
theorem fixPath_startsWith {p : String} (h : strStartsWith "/" p = true) :
    strStartsWith "/" (fixPath p) = true := by
  unfold fixPath
  cases hsg : segsOf p with
  | nil => exact h
  | cons first rest =>
    cases rest with
    | nil => exact h
    | cons second rest2 =>
      show strStartsWith "/"
        (if second = first then "/" ++ first ++ "/"
         else if second = first ++ first then "/" ++ first ++ "/"
         else if strStartsWith first second = true ∧
             ¬ sepAfter second first.toList.length = true then
           (if (strDropChars second first.toList.length).toList.length ≤ 2 then
             "/" ++ first ++ "/" ++ strDropChars second first.toList.length ++ "/"
           else p)
         else p) = true
      by_cases h1 : second = first
      · rw [if_pos h1]
        exact startsWith_append_left _ (strStartsWith_slash_append first)
      · rw [if_neg h1]
        by_cases h2 : second = first ++ first
        · rw [if_pos h2]
          exact startsWith_append_left _ (strStartsWith_slash_append first)
        · rw [if_neg h2]
          by_cases h3 : strStartsWith first second = true ∧
              ¬ sepAfter second first.toList.length = true
          · rw [if_pos h3]
            by_cases h4 : (strDropChars second first.toList.length).toList.length ≤ 2
            · rw [if_pos h4]
              exact startsWith_append_left _ (startsWith_append_left _
                (startsWith_append_left _ (strStartsWith_slash_append first)))
            · rw [if_neg h4]
              exact h
          · rw [if_neg h3]
            exact h

end Autonav

namespace Autonav

/-- `fixMalformedPaths` preserves the leading-slash invariant. -/
theorem kidsOkB_fixMalformed {m : NavMap}
    (h : kidsOkB pathStartsSlash m = true) :
    kidsOkB pathStartsSlash (fixMalformed m) = true := by
  have key : ∀ (n : Nat) (mm : NavMap), mapSize mm = n →
      kidsOkB pathStartsSlash mm = true →
      kidsOkB pathStartsSlash (fixMalformed mm) = true := by
    intro n
    induction n using Nat.strong_induction_on with
    | _ n ih =>
      intro mm hn hm
      cases mm with
      | nil => exact hm
      | cons c rest =>
        rw [show fixMalformed (c :: rest) = fixMalformedNode c :: fixMalformed rest from rfl]
        rw [show kidsOkB pathStartsSlash (fixMalformedNode c :: fixMalformed rest) =
          (nodeOkB pathStartsSlash (fixMalformedNode c) &&
            kidsOkB pathStartsSlash (fixMalformed rest)) from rfl, Bool.and_eq_true]
        rw [show kidsOkB pathStartsSlash (c :: rest) =
          (nodeOkB pathStartsSlash c && kidsOkB pathStartsSlash rest) from rfl,
          Bool.and_eq_true] at hm
        rw [mapSize_cons] at hn
        have hpos := nodeSize_pos c
        constructor
        · cases c with
          | mk k t p i cs =>
            rcases nodeOkB_dest hm.1 with ⟨hp, hcs⟩
            have hpn : p ≠ "" := by
              intro hc
              subst hc
              have hp2 : strStartsWith "/" "" = true := hp
              exact absurd hp2 (by decide)
            rw [show fixMalformedNode (NavNode.mk k t p i cs) =
              (if p = "" then NavNode.mk k t p i cs
               else NavNode.mk k t (fixPath p) i (fixMalformed cs)) from rfl,
              if_neg hpn]
            rw [nodeOkB_mk, Bool.and_eq_true]
            constructor
            · exact fixPath_startsWith hp
            · have hlt : mapSize cs < nodeSize (NavNode.mk k t p i cs) :=
                mapSize_children_lt (NavNode.mk k t p i cs)
              exact ih (mapSize cs) (by omega) cs rfl hcs
        · exact ih (mapSize rest) (by omega) rest rfl hm.2
  exact key (mapSize m) m rfl h

/-- `removeDuplicates` preserves the leading-slash invariant. -/
theorem kidsOkB_rdChildrenF : ∀ (fuel : Nat) (dups : String → Bool)
    (pp : Option String) (m : NavMap),
    kidsOkB pathStartsSlash m = true →
    kidsOkB pathStartsSlash (rdChildrenF fuel dups pp m) = true := by
  intro fuel
  induction fuel with
  | zero => exact fun dups pp m h => h
  | succ fl ih =>
    intro dups pp m h
    have hA : ∀ c ∈ rdPhaseA m, nodeOkB pathStartsSlash c = true := by
      intro c hc
      rcases List.mem_map.mp hc with ⟨c0, hc0, hcc0⟩
      have hc0ok : nodeOkB pathStartsSlash c0 = true := kidsOkB_iff.mp h c0 hc0
      rcases nodeOkB_dest hc0ok with ⟨hp0, hk0⟩
      rw [← hcc0]
      unfold rdStep
      cases hl : lookupKey c0.children c0.key with
      | none => exact hc0ok
      | some g =>
        have hg : g ∈ c0.children := (lookupKey_mem hl).1
        have hgok : nodeOkB pathStartsSlash g = true := kidsOkB_iff.mp hk0 g hg
        cases c0 with
        | mk k t p i cs =>
          rw [nodeOkB_mk, Bool.and_eq_true]
          constructor
          · by_cases hcond : g.path ≠ "" ∧
                rawSegCount (NavNode.mk k t p i cs).path < rawSegCount g.path
            · rw [if_pos hcond]
              exact (nodeOkB_dest hgok).1
            · rw [if_neg hcond]
              exact hp0
          · exact kidsOkB_filter _ hk0
    rw [show rdChildrenF (fl + 1) dups pp m =
      (rdPhaseA m).filterMap (fun c =>
        if some c.path = pp then none
        else if dups c.path ∧ hasDoubledSeg c.path then none
        else
          let c1 := NavNode.mk c.key c.title c.path c.index
            (rdChildrenF fl dups (some c.path) c.children)
          match lookupKey c1.children c1.key with
          | some g =>
            if rawSegCount c1.path < rawSegCount g.path then
              some (NavNode.mk c1.key g.title g.path c1.index (eraseKey c1.children c1.key))
            else
              some (NavNode.mk c1.key c1.title c1.path c1.index (eraseKey c1.children c1.key))
          | none => some c1) from rfl]
    rw [kidsOkB_iff]
    intro n hn
    rcases List.mem_filterMap.mp hn with ⟨c, hc, hfc⟩
    have hcok := hA c hc
    rcases nodeOkB_dest hcok with ⟨hcp, hck⟩
    have hrec : kidsOkB pathStartsSlash
        (rdChildrenF fl dups (some c.path) c.children) = true := ih _ _ _ hck
    by_cases h1 : some c.path = pp
    · rw [if_pos h1] at hfc
      cases hfc
    · rw [if_neg h1] at hfc
      by_cases h2 : dups c.path ∧ hasDoubledSeg c.path
      · rw [if_pos h2] at hfc
        cases hfc
      · rw [if_neg h2] at hfc
        simp only at hfc
        have hfc2 : (match lookupKey (rdChildrenF fl dups (some c.path) c.children)
              c.key with
            | some g =>
              if rawSegCount c.path < rawSegCount g.path then
                some (NavNode.mk c.key g.title g.path c.index
                  (eraseKey (rdChildrenF fl dups (some c.path) c.children) c.key))
              else
                some (NavNode.mk c.key c.title c.path c.index
                  (eraseKey (rdChildrenF fl dups (some c.path) c.children) c.key))
            | none => some (NavNode.mk c.key c.title c.path c.index
                (rdChildrenF fl dups (some c.path) c.children))) = some n := hfc
        split at hfc2
        next g hl =>
          have hg : g ∈ rdChildrenF fl dups (some c.path) c.children :=
            (lookupKey_mem hl).1
          have hgok : nodeOkB pathStartsSlash g = true := kidsOkB_iff.mp hrec g hg
          have herase : kidsOkB pathStartsSlash
              (eraseKey (rdChildrenF fl dups (some c.path) c.children) c.key) = true :=
            kidsOkB_filter _ hrec
          by_cases h3 : rawSegCount c.path < rawSegCount g.path
          · rw [if_pos h3] at hfc2
            cases hfc2
            rw [nodeOkB_mk, Bool.and_eq_true]
            exact ⟨(nodeOkB_dest hgok).1, herase⟩
          · rw [if_neg h3] at hfc2
            cases hfc2
            rw [nodeOkB_mk, Bool.and_eq_true]
            exact ⟨hcp, herase⟩
        next hl =>
          cases hfc2
          rw [nodeOkB_mk, Bool.and_eq_true]
          exact ⟨hcp, hrec⟩

end Autonav

namespace Autonav

/-- Every node `buildTreeRecursively` writes keeps a leading-slash path,
provided the nav item has one and (without permalinks) the first path
segment does not strip to nothing. -/
theorem buildTreeRecF_pathsOk (opts : Opts) (navItem : NavNode)
    (segs : List String)
    (hnav : nodeOkB pathStartsSlash navItem = true)
    (hseg : opts.usePermalinks = true ∨ stripIndexName (segs.getD 0 "") ≠ "") :
    ∀ (fuel : Nat) (node : NavMap) (depth : Nat),
      kidsOkB pathStartsSlash node = true →
      kidsOkB pathStartsSlash (buildTreeRecF opts navItem segs fuel node depth) = true := by
  have hnavp : strStartsWith "/" navItem.path = true := (nodeOkB_dest hnav).1
  have hsegpath : ∀ (depth : Nat),
      strStartsWith "/" (if opts.usePermalinks then currentPathAt opts.usePermalinks segs depth
        else dropTrailSlash (currentPathAt opts.usePermalinks segs depth) ++ ".html") = true := by
    intro depth
    cases hu : opts.usePermalinks with
    | true =>
      rw [if_pos rfl]
      exact currentPathAt_startsWith true segs depth
    | false =>
      rw [if_neg (by simp)]
      rcases hseg with hseg | hseg
      · rw [hu] at hseg
        cases hseg
      · rcases currentPathAt_long false segs depth hseg with ⟨r, hr1, hr2⟩
        exact startsWith_append_left _ (dropTrailSlash_startsWith hr1 hr2)
  intro fuel
  induction fuel with
  | zero => exact fun node depth h => h
  | succ fl ih =>
    intro node depth h
    rw [buildTreeRecF]
    by_cases hlen : segs.length ≤ depth
    · rw [if_pos hlen]
      exact h
    · rw [if_neg hlen]
      by_cases hidx : (depth = segs.length - 1) ∧
          (segs.getD depth "" = "index.html" ∨ segs.getD depth "" = "index.md")
      · rw [if_pos hidx]
        by_cases hd0 : depth > 0
        · rw [if_pos hd0]
          apply kidsOkB_setKey _ h
          rw [nodeOkB_mk, Bool.and_eq_true]
          constructor
          · exact hnavp
          · cases hb : lookupKey node (stripExt (segs.getD (depth - 1) "")) with
            | some b =>
              exact (nodeOkB_dest (kidsOkB_iff.mp h b (lookupKey_mem hb).1)).2
            | none =>
              rfl
        · rw [if_neg hd0]
          cases hh : lookupKey node "home" with
          | none =>
            exact kidsOkB_setKey _ h hnav
          | some hm =>
            apply kidsOkB_setKey _ h
            rw [nodeOkB_mk, Bool.and_eq_true]
            exact ⟨hnavp, (nodeOkB_dest (kidsOkB_iff.mp h hm (lookupKey_mem hh).1)).2⟩
      · rw [if_neg hidx]
        by_cases hlast : depth = segs.length - 1
        · rw [if_pos hlast]
          by_cases hd0 : depth = 0
          · rw [if_pos hd0]
            exact kidsOkB_setKey _ h hnav
          · rw [if_neg hd0]
            apply kidsOkB_setKey _ h
            cases hb : lookupKey node (stripExt (segs.getD (depth - 1) "")) with
            | some b =>
              have hbok := kidsOkB_iff.mp h b (lookupKey_mem hb).1
              rcases nodeOkB_dest hbok with ⟨hbp, hbk⟩
              rw [nodeOkB_mk, Bool.and_eq_true]
              refine ⟨hbp, ?_⟩
              show kidsOkB pathStartsSlash
                (match lookupKey b.children (stripExt (segs.getD depth "")) with
                 | some _ => b.children
                 | none => setKey b.children (stripExt (segs.getD depth "")) navItem) = true
              cases hlk : lookupKey b.children (stripExt (segs.getD depth "")) with
              | some q => exact hbk
              | none => exact kidsOkB_setKey _ hbk hnav
            | none =>
              rw [nodeOkB_mk, Bool.and_eq_true]
              constructor
              · exact parentPathAt_startsWith opts.usePermalinks segs depth
              · exact kidsOkB_setKey _ rfl hnav
        · rw [if_neg hlast]
          apply kidsOkB_setKey _ h
          cases hb : lookupKey node (stripExt (segs.getD depth "")) with
          | some b =>
            have hbok := kidsOkB_iff.mp h b (lookupKey_mem hb).1
            rcases nodeOkB_dest hbok with ⟨hbp, hbk⟩
            rw [nodeOkB_mk, Bool.and_eq_true]
            exact ⟨hbp, ih b.children (depth + 1) hbk⟩
          | none =>
            rw [nodeOkB_mk, Bool.and_eq_true]
            constructor
            · show strStartsWith "/"
                  (if opts.usePermalinks = true then currentPathAt opts.usePermalinks segs depth
                   else
                     if depth = segs.length - 1 ∧
                         (segs.getD depth "" = "index.html" ∨ segs.getD depth "" = "index.md") then
                       currentPathAt opts.usePermalinks segs depth
                     else dropTrailSlash (currentPathAt opts.usePermalinks segs depth) ++ ".html") = true
              rw [if_neg hidx]
              exact hsegpath depth
            · exact ih [] (depth + 1) rfl

end Autonav

namespace Autonav

theorem getD_zero_append (l : List String) (x : String) (h : l ≠ []) :
    (l ++ [x]).getD 0 "" = l.getD 0 "" := by
  cases l with
  | nil => exact absurd rfl h
  | cons a t => rfl

theorem getD_zero_mem (l : List String) (h : l ≠ []) : l.getD 0 "" ∈ l := by
  cases l with
  | nil => exact absurd rfl h
  | cons a t => exact List.mem_cons_self a t

/-- `addToTree` keeps the leading-slash invariant: the empty-segment branch
stores the (slash-leading) nav item directly, and the recursive branch is
`buildTreeRecF_pathsOk`. -/
theorem addToTree_pathsOk (tree : NavMap) (segments : List String)
    (navItem : NavNode) (filePath : String) (opts : Opts)
    (hnav : nodeOkB pathStartsSlash navItem = true)
    (hseg : segments ≠ [] →
      opts.usePermalinks = true ∨ stripIndexName (segments.getD 0 "") ≠ "")
    (h : kidsOkB pathStartsSlash tree = true) :
    kidsOkB pathStartsSlash (addToTree tree segments navItem filePath opts) = true := by
  unfold addToTree
  by_cases hs : segments = []
  · rw [if_pos hs]
    exact kidsOkB_setKey _ h hnav
  · rw [if_neg hs]
    refine buildTreeRecF_pathsOk opts navItem _ hnav ?_ _ tree 0 h
    rcases hseg hs with hu | hd
    · exact Or.inl hu
    · exact Or.inr (by rw [getD_zero_append _ _ hs]; exact hd)

/-- The nav item `buildNavTree` constructs always has a leading-slash path
(`normalizePath` forces one) and no children. -/
theorem navItemOf_ok (opts : Opts) (p : String) (f : FileRec) :
    nodeOkB pathStartsSlash (navItemOf opts p f) = true := by
  show (strStartsWith "/"
    (ensureLeadSlash (backslashToSlash (rawUrlPath opts.usePermalinks p))) && true) = true
  rw [Bool.and_true]
  exact strStartsWith_ensureLeadSlash _

/-- One iteration of the per-file loop preserves the leading-slash
invariant, provided permalinks are on or no directory segment of a
processed file strips to the empty string. -/
theorem treeStep_pathsOk (opts : Opts) (files : List (String × FileRec))
    (t : NavMap) (p : String)
    (hseg : opts.usePermalinks = true ∨
      ∀ q ∈ files, ∀ dseg ∈ dirSegs q.1, stripIndexName dseg ≠ "")
    (h : kidsOkB pathStartsSlash t = true) :
    kidsOkB pathStartsSlash (treeStep opts files t p) = true := by
  unfold treeStep
  cases hf : (files.find? (fun q => q.1 = p)).map (fun q => q.2) with
  | none => exact h
  | some f =>
    rcases Option.map_eq_some'.mp hf with ⟨q, hq, hqf⟩
    have hqmem : q ∈ files := List.mem_of_find?_eq_some hq
    have hfind := List.find?_some hq
    have hqp : q.1 = p := of_decide_eq_true hfind
    show kidsOkB pathStartsSlash
      (if skipFile opts p f = true then t
       else addToTree t (dirSegs p) (navItemOf opts p f) p opts) = true
    by_cases hsk : skipFile opts p f = true
    · rw [if_pos hsk]
      exact h
    · rw [if_neg hsk]
      refine addToTree_pathsOk _ _ _ _ _ (navItemOf_ok opts p f) (fun hne => ?_) h

      rcases hseg with hu | hd
      · exact Or.inl hu
      · refine Or.inr (hd q hqmem _ ?_)
        rw [hqp]
        exact getD_zero_mem _ hne

theorem foldl_treeStep_pathsOk (opts : Opts) (files : List (String × FileRec))
    (hseg : opts.usePermalinks = true ∨
      ∀ q ∈ files, ∀ dseg ∈ dirSegs q.1, stripIndexName dseg ≠ "") :
    ∀ (ps : List String) (t : NavMap), kidsOkB pathStartsSlash t = true →
      kidsOkB pathStartsSlash (ps.foldl (treeStep opts files) t) = true := by
  intro ps
  induction ps with
  | nil => exact fun t h => h
  | cons p rest ih =>
    intro t h
    rw [List.foldl_cons]
    exact ih _ (treeStep_pathsOk opts files t p hseg h)

/-- C9 counterexample.  With permalinks off, a directory literally named
`index.md` makes every `currentPath` segment strip to nothing, so the
segment path degenerates to `".html"`: for the single file
`index.md/a/b.md` the finished tree's top node has path `".html"`, which
does not start with `/`. -/
theorem c9_counterexample :
    (lookupKey (buildNavTree [("index.md/a/b.md", {})] { usePermalinks := false })
        "index").map NavNode.path = some ".html" ∧
      strStartsWith "/" ".html" = false := by
  constructor
  · rfl
  · decide

/-- C9 (amended).  Every node of the produced navigation tree, at every
depth, has a path starting with `/`, provided permalinks are on or no
directory segment of an input file path ends in `index.html`/`index.md`
(i.e. none strips to the empty string).  Without that proviso the
invariant fails (see the counterexample): a directory named `index.md`
yields a top-level node with path `".html"`. -/
theorem c9_amended_leading_slash (files : List (String × FileRec)) (opts : Opts)
    (h : opts.usePermalinks = true ∨
      ∀ q ∈ files, ∀ dseg ∈ dirSegs q.1, stripIndexName dseg ≠ "") :
    kidsOkB pathStartsSlash (buildNavTree files opts) = true := by
  unfold buildNavTree
  apply kidsOkB_sortTreeF pathStartsSlash (fun p l1 l2 _ hp => hp)
  unfold cleanupTree
  rw [kidsOkB_cleanEmpty]
  apply kidsOkB_rdChildrenF
  apply kidsOkB_fixMalformed
  exact foldl_treeStep_pathsOk opts files h _ [] rfl

/-- C9 amended witness: a concrete nested file with permalinks off whose
directory segment survives `stripIndexName`. -/
theorem c9_amended_leading_slash_witness :
    kidsOkB pathStartsSlash
      (buildNavTree [("blog/post.md", {})] { usePermalinks := false }) = true :=
  c9_amended_leading_slash [("blog/post.md", {})] { usePermalinks := false }
    (Or.inr (by
      intro q hq dseg hd
      rw [List.mem_singleton] at hq
      subst hq
      have hds : dirSegs "blog/post.md" = ["blog"] := rfl
      rw [hds, List.mem_singleton] at hd
      subst hd
      decide))

end Autonav
